import Mathlib

/-!
Verification model of a reference-counted smart-pointer implementation
(`shared-ptr.h`): `control_block`, `ptr_block`/`obj_block`, `shared_ptr`,
`weak_ptr` and `make_shared`.

Modelling choices (shallow embedding):
* Raw `T*` pointers are modelled as `Option Nat` (`none` = `nullptr`,
  `some a` = the address `a`).
* Control blocks live on an explicit heap indexed by allocation order
  (`Heap.next` is the next fresh block id).  A block holds the two
  `unsigned long` counters `strong_ref` and `weak_ref`.  The counters are
  modelled as `Nat`: overflowing them would need more than `2 ^ 64`
  simultaneously live handles, which cannot occur in an execution of the
  C++ program (each handle occupies memory), so wrap-around is immaterial.
* The observable side effects are recorded in an event trace:
  `Event.release bid` is the virtual `cb->unlink()` call (the payload
  release: the stored deleter applied to the stored pointer for
  `ptr_block`, the in-place destructor for `obj_block`);
  `Event.dealloc bid` is `delete cb` (reclaiming the block's memory);
  `Event.deleterCall p` is the direct `d(ptr)` call in the allocation
  failure path of `shared_ptr::make_cb`.
* Operations that dereference a control-block pointer return `none`
  (undefined behavior) when the block has already been deallocated.
-/

/-- Control block (`struct control_block`): the two reference counters.
The virtual `unlink` capability is represented by the `Event.release`
entries logged by the pointer operations. -/
structure control_block where
  strong_ref : Nat
  weak_ref : Nat
deriving DecidableEq

/-- Observable side effects of the pointer operations. -/
inductive Event where
  | release (bid : Nat)
  | dealloc (bid : Nat)
  | deleterCall (p : Option Nat)
deriving DecidableEq

/-- The heap of live control blocks, a fresh-id counter and the event
trace. -/
structure Heap where
  mem : Nat → Option control_block
  next : Nat
  events : List Event

/-- Overwrite the counters of block `bid`. -/
def Heap.set (h : Heap) (bid : Nat) (b : control_block) : Heap :=
  ⟨fun x => if x = bid then some b else h.mem x, h.next, h.events⟩

/-- Remove block `bid` from the heap (`delete cb` reclaims its memory). -/
def Heap.erase (h : Heap) (bid : Nat) : Heap :=
  ⟨fun x => if x = bid then none else h.mem x, h.next, h.events⟩

/-- Append an event to the trace. -/
def Heap.log (h : Heap) (e : Event) : Heap :=
  ⟨h.mem, h.next, h.events ++ [e]⟩

/-- Allocate a fresh control block, returning its id. -/
def Heap.alloc (h : Heap) (b : control_block) : Nat × Heap :=
  (h.next, ⟨fun x => if x = h.next then some b else h.mem x, h.next + 1, h.events⟩)

/-- The empty heap. -/
def Heap.empty : Heap := ⟨fun _ => none, 0, []⟩

/-- Owning pointer (`template <typename T> class shared_ptr`): a
control-block pointer `cb` and the accessible value pointer `obj`. -/
structure shared_ptr where
  cb : Option Nat
  obj : Option Nat
deriving DecidableEq

/-- Observing pointer (`template <typename T> class weak_ptr`). -/
structure weak_ptr where
  cb : Option Nat
  obj : Option Nat
deriving DecidableEq

/-- Default constructor `shared_ptr()`: both members are `nullptr`. -/
def shared_ptr.mk0 : shared_ptr := ⟨none, none⟩

/-- Private helper `shared_ptr::unlink` (shared-ptr.h:80-95):

    if (cb != nullptr) {
      if (cb->strong_ref > 0) cb->strong_ref--;
      if (cb->strong_ref == 0) { cb->unlink(); }
      if (cb->strong_ref + cb->weak_ref == 0) { delete cb; }
      cb = nullptr;
    }
    obj = nullptr;

Returns the emptied pointer and the updated heap; `none` when `cb` points
at an already-deallocated block (undefined behavior in the source). -/
def shared_ptr.unlink (sp : shared_ptr) (h : Heap) : Option (shared_ptr × Heap) :=
  match sp.cb with
  | none => some (⟨none, none⟩, h)
  | some bid =>
    match h.mem bid with
    | none => none
    | some b =>
      let b1 : control_block :=
        if b.strong_ref > 0 then ⟨b.strong_ref - 1, b.weak_ref⟩ else b
      let h1 := h.set bid b1
      let h2 := if b1.strong_ref = 0 then h1.log (Event.release bid) else h1
      let h3 :=
        if b1.strong_ref + b1.weak_ref = 0 then (h2.erase bid).log (Event.dealloc bid)
        else h2
      some (⟨none, none⟩, h3)

/-- Private helper `shared_ptr::make_cb` (shared-ptr.h:68-79): allocate a
`ptr_block` wrapping `ptr`.  If the allocation fails (`allocOk = false`)
the deleter is invoked on `ptr` and the exception propagates (result
`none`); the members of the pointer under construction are left
untouched.  On success the fresh block starts at `strong_ref = 0`, then
`obj = ptr` and `cb->strong_ref++`. -/
def shared_ptr.make_cb (ptr : Option Nat) (allocOk : Bool) (h : Heap) :
    Option shared_ptr × Heap :=
  if allocOk then
    let r := h.alloc ⟨0, 0⟩
    (some ⟨some r.1, ptr⟩, r.2.set r.1 ⟨0 + 1, 0⟩)
  else
    (none, h.log (Event.deleterCall ptr))

/-- Constructor `shared_ptr(std::nullptr_t)` (shared-ptr.h:100-101): it
allocates `new ptr_block<T>(nullptr)` for `cb`, performs no increment,
and leaves `obj` as `nullptr`.  (Allocation assumed to succeed; on
failure nothing is adopted or leaked.) -/
def shared_ptr.fromNullptr (h : Heap) : shared_ptr × Heap :=
  let r := h.alloc ⟨0, 0⟩
  (⟨some r.1, none⟩, r.2)

/-- Constructor `shared_ptr(T_construct* ptr, Deleter d)`
(shared-ptr.h:103-107): delegates to `make_cb`. -/
def shared_ptr.fromRaw (ptr : Option Nat) (allocOk : Bool) (h : Heap) :
    Option shared_ptr × Heap :=
  shared_ptr.make_cb ptr allocOk h

/-- Copy constructor `shared_ptr(const shared_ptr&)` (shared-ptr.h:115-119)
and the converting copy constructor (121-126): copies both members and
increments `strong_ref` when `cb` is non-null. -/
def shared_ptr.copyCtor (other : shared_ptr) (h : Heap) : Option (shared_ptr × Heap) :=
  match other.cb with
  | none => some (⟨none, other.obj⟩, h)
  | some bid =>
    (h.mem bid).map fun b =>
      (⟨some bid, other.obj⟩, h.set bid ⟨b.strong_ref + 1, b.weak_ref⟩)

/-- Aliasing constructor `shared_ptr(shared_ptr<T_parent>& parent, T* ptr)`
(shared-ptr.h:109-113): shares the parent's block (incrementing
`strong_ref` when non-null) but stores `ptr` as the accessible value. -/
def shared_ptr.aliasCtor (parent : shared_ptr) (ptr : Option Nat) (h : Heap) :
    Option (shared_ptr × Heap) :=
  match parent.cb with
  | none => some (⟨none, ptr⟩, h)
  | some bid =>
    (h.mem bid).map fun b =>
      (⟨some bid, ptr⟩, h.set bid ⟨b.strong_ref + 1, b.weak_ref⟩)

/-- Move constructor `shared_ptr(shared_ptr&&)` (shared-ptr.h:128-131) and
the converting move constructor (133-138): returns (destination, emptied
source).  No counter is touched. -/
def shared_ptr.moveCtor (other : shared_ptr) : shared_ptr × shared_ptr :=
  (⟨other.cb, other.obj⟩, ⟨none, none⟩)

/-- Copy assignment (shared-ptr.h:140-144): `shared_ptr<T> new_sp(other);
this->swap(new_sp);` — copy-construct a temporary from the source, then
the temporary (holding the old value of `self`) is destroyed. -/
def shared_ptr.assignCopy (self other : shared_ptr) (h : Heap) :
    Option (shared_ptr × Heap) :=
  (shared_ptr.copyCtor other h).bind fun pr =>
    (shared_ptr.unlink self pr.2).map fun pr2 => (pr.1, pr2.2)

/-- Accessor `get()` (shared-ptr.h:152-154). -/
def shared_ptr.get (sp : shared_ptr) : Option Nat := sp.obj

/-- Conversion `operator bool()` (shared-ptr.h:155-157): true iff `obj`
is non-null. -/
def shared_ptr.opBool (sp : shared_ptr) : Bool := sp.obj.isSome

/-- Implicit conversion `operator T*()` (shared-ptr.h:182-184). -/
def shared_ptr.opRawPtr (sp : shared_ptr) : Option Nat := sp.obj

/-- Equality `operator==` (shared-ptr.h:186-188):
`(cb == other.cb) && (obj == other.obj)`. -/
def shared_ptr.opEq (a b : shared_ptr) : Bool :=
  a.cb == b.cb && a.obj == b.obj

/-- Accessor `use_count()` (shared-ptr.h:165-167):
`cb ? cb->strong_ref : 0`; `none` on a dangling block pointer. -/
def shared_ptr.use_count (sp : shared_ptr) (h : Heap) : Option Nat :=
  match sp.cb with
  | none => some 0
  | some bid => (h.mem bid).map control_block.strong_ref

/-- Mutator `reset(T_reset* new_ptr, Deleter d)` (shared-ptr.h:172-176):
`unlink(); make_cb(new_ptr, d);`.  The boolean result records whether the
reconstruction succeeded (`false` = the allocation failure propagated,
leaving the pointer as `unlink` left it). -/
def shared_ptr.resetRaw (self : shared_ptr) (ptr : Option Nat) (allocOk : Bool)
    (h : Heap) : Option (Bool × shared_ptr × Heap) :=
  (shared_ptr.unlink self h).map fun pr =>
    match shared_ptr.make_cb ptr allocOk pr.2 with
    | (some sp2, h2) => (true, sp2, h2)
    | (none, h2) => (false, pr.1, h2)

/-- Default constructor `weak_ptr()`. -/
def weak_ptr.mk0 : weak_ptr := ⟨none, none⟩

/-- Constructor `weak_ptr(const shared_ptr<T>&)` (shared-ptr.h:211-214):
copies both members and increments `weak_ref` when `cb` is non-null. -/
def weak_ptr.fromShared (sp : shared_ptr) (h : Heap) : Option (weak_ptr × Heap) :=
  match sp.cb with
  | none => some (⟨none, sp.obj⟩, h)
  | some bid =>
    (h.mem bid).map fun b =>
      (⟨some bid, sp.obj⟩, h.set bid ⟨b.strong_ref, b.weak_ref + 1⟩)

/-- Copy constructor `weak_ptr(const weak_ptr&)` (shared-ptr.h:216-219). -/
def weak_ptr.copyCtor (other : weak_ptr) (h : Heap) : Option (weak_ptr × Heap) :=
  match other.cb with
  | none => some (⟨none, other.obj⟩, h)
  | some bid =>
    (h.mem bid).map fun b =>
      (⟨some bid, other.obj⟩, h.set bid ⟨b.strong_ref, b.weak_ref + 1⟩)

/-- Move constructor `weak_ptr(weak_ptr&&)` (shared-ptr.h:221-224). -/
def weak_ptr.moveCtor (other : weak_ptr) : weak_ptr × weak_ptr :=
  (⟨other.cb, other.obj⟩, ⟨none, none⟩)

/-- Private helper `weak_ptr::unlink` (shared-ptr.h:263-272):

    if (cb != nullptr) {
      cb->weak_ref--;
      if (cb->strong_ref + cb->weak_ref == 0) delete cb;
    }
    cb = nullptr; obj = nullptr;

The decrement of the `unsigned long` is unguarded in the source; every
reachable call site has `weak_ref >= 1` (each live observer accounts for
one unit), so the `Nat` subtraction below agrees with the machine
arithmetic there. -/
def weak_ptr.unlink (w : weak_ptr) (h : Heap) : Option (weak_ptr × Heap) :=
  match w.cb with
  | none => some (⟨none, none⟩, h)
  | some bid =>
    (h.mem bid).map fun b =>
      let b1 : control_block := ⟨b.strong_ref, b.weak_ref - 1⟩
      let h1 := h.set bid b1
      let h2 :=
        if b1.strong_ref + b1.weak_ref = 0 then (h1.erase bid).log (Event.dealloc bid)
        else h1
      (⟨none, none⟩, h2)

/-- Copy assignment `weak_ptr::operator=(const weak_ptr&)`
(shared-ptr.h:226-230): construct-temporary-then-swap, so the temporary
holding the old value of `self` is destroyed afterwards. -/
def weak_ptr.assignCopy (self other : weak_ptr) (h : Heap) : Option (weak_ptr × Heap) :=
  (weak_ptr.copyCtor other h).bind fun pr =>
    (weak_ptr.unlink self pr.2).map fun pr2 => (pr.1, pr2.2)

/-- Assignment from an owner `weak_ptr::operator=(const shared_ptr<T>&)`
(shared-ptr.h:238-247): `unlink(); cb = other.cb; obj = other.obj;
if (other.cb) cb->weak_ref++;`. -/
def weak_ptr.assignShared (self : weak_ptr) (sp : shared_ptr) (h : Heap) :
    Option (weak_ptr × Heap) :=
  (weak_ptr.unlink self h).bind fun pr =>
    match sp.cb with
    | none => some (⟨none, sp.obj⟩, pr.2)
    | some bid =>
      (pr.2.mem bid).map fun b =>
        (⟨some bid, sp.obj⟩, pr.2.set bid ⟨b.strong_ref, b.weak_ref + 1⟩)

/-- Promotion `weak_ptr::lock()` (shared-ptr.h:249-256):

    if (cb != nullptr && cb->strong_ref != 0) {
      cb->strong_ref++;
      return shared_ptr<T>(cb, obj);
    } else {
      return shared_ptr<T>();
    }
-/
def weak_ptr.lock (w : weak_ptr) (h : Heap) : Option (shared_ptr × Heap) :=
  match w.cb with
  | none => some (⟨none, none⟩, h)
  | some bid =>
    (h.mem bid).map fun b =>
      if b.strong_ref ≠ 0 then
        (⟨some bid, w.obj⟩, h.set bid ⟨b.strong_ref + 1, b.weak_ref⟩)
      else
        (⟨none, none⟩, h)

/-- Factory `make_shared` (shared-ptr.h:282-287): allocates one
`obj_block` holding both the counters and the in-place payload
(`ob->strong_ref++` brings the strong count to 1), and the accessible
value pointer is `ob->get()`, the payload storage inside that same
allocation — modelled as the address `bid` of the block itself. -/
def make_shared (h : Heap) : shared_ptr × Heap :=
  let r := h.alloc ⟨0, 0⟩
  (⟨some r.1, some r.1⟩, r.2.set r.1 ⟨0 + 1, 0⟩)

/-!
A small-step machine over the public API.  A program is a list of
commands acting on an environment of live owning pointers (`sps`) and
live observing pointers (`wps`); constructors cons the new handle at the
head, destructors erase the handle's slot.  A command that names a
nonexistent handle, or reaches undefined behavior (an operation touching
an already-deallocated control block), is stuck (`none`).
-/

/-- One public operation of the API surface. -/
inductive Cmd where
  | newDefault
  | newFromNullptr
  | newFromRaw (p : Option Nat) (allocOk : Bool)
  | newMakeShared
  | copyFrom (i : Nat)
  | moveFrom (i : Nat)
  | aliasFrom (i : Nat) (p : Option Nat)
  | assignCopySp (dst src : Nat)
  | assignMoveSp (dst src : Nat)
  | resetSp (i : Nat)
  | resetRawSp (i : Nat) (p : Option Nat) (allocOk : Bool)
  | destroySp (i : Nat)
  | newWeakFromShared (i : Nat)
  | weakCopy (j : Nat)
  | weakMove (j : Nat)
  | weakAssignCopy (dst src : Nat)
  | weakAssignMove (dst src : Nat)
  | weakAssignShared (dst : Nat) (i : Nat)
  | destroyWeak (j : Nat)
  | lockWeak (j : Nat)
deriving DecidableEq

/-- Machine state: the heap plus the environments of live handles. -/
structure State where
  heap : Heap
  sps : List shared_ptr
  wps : List weak_ptr

/-- The initial state: empty heap, no handles. -/
def State.init : State := ⟨Heap.empty, [], []⟩

/-- Execute one command. -/
def step (s : State) (c : Cmd) : Option State :=
  match c with
  | Cmd.newDefault => some ⟨s.heap, shared_ptr.mk0 :: s.sps, s.wps⟩
  | Cmd.newFromNullptr =>
    let r := shared_ptr.fromNullptr s.heap
    some ⟨r.2, r.1 :: s.sps, s.wps⟩
  | Cmd.newFromRaw p allocOk =>
    match shared_ptr.fromRaw p allocOk s.heap with
    | (some sp, h) => some ⟨h, sp :: s.sps, s.wps⟩
    | (none, h) => some ⟨h, s.sps, s.wps⟩
  | Cmd.newMakeShared =>
    let r := make_shared s.heap
    some ⟨r.2, r.1 :: s.sps, s.wps⟩
  | Cmd.copyFrom i =>
    match s.sps[i]? with
    | none => none
    | some sp =>
      (shared_ptr.copyCtor sp s.heap).map fun pr => ⟨pr.2, pr.1 :: s.sps, s.wps⟩
  | Cmd.moveFrom i =>
    match s.sps[i]? with
    | none => none
    | some sp =>
      let r := shared_ptr.moveCtor sp
      some ⟨s.heap, r.1 :: s.sps.set i r.2, s.wps⟩
  | Cmd.aliasFrom i p =>
    match s.sps[i]? with
    | none => none
    | some sp =>
      (shared_ptr.aliasCtor sp p s.heap).map fun pr => ⟨pr.2, pr.1 :: s.sps, s.wps⟩
  | Cmd.assignCopySp dst src =>
    match s.sps[dst]?, s.sps[src]? with
    | some old, some srcv =>
      (shared_ptr.assignCopy old srcv s.heap).map fun pr =>
        ⟨pr.2, s.sps.set dst pr.1, s.wps⟩
    | _, _ => none
  | Cmd.assignMoveSp dst src =>
    match s.sps[dst]?, s.sps[src]? with
    | some old, some srcv =>
      if dst = src then
        some s
      else
        (shared_ptr.unlink old s.heap).map fun pr =>
          ⟨pr.2, (s.sps.set dst srcv).set src ⟨none, none⟩, s.wps⟩
    | _, _ => none
  | Cmd.resetSp i =>
    match s.sps[i]? with
    | none => none
    | some sp =>
      (shared_ptr.unlink sp s.heap).map fun pr => ⟨pr.2, s.sps.set i pr.1, s.wps⟩
  | Cmd.resetRawSp i p allocOk =>
    match s.sps[i]? with
    | none => none
    | some sp =>
      (shared_ptr.resetRaw sp p allocOk s.heap).map fun tr =>
        ⟨tr.2.2, s.sps.set i tr.2.1, s.wps⟩
  | Cmd.destroySp i =>
    match s.sps[i]? with
    | none => none
    | some sp =>
      (shared_ptr.unlink sp s.heap).map fun pr => ⟨pr.2, s.sps.eraseIdx i, s.wps⟩
  | Cmd.newWeakFromShared i =>
    match s.sps[i]? with
    | none => none
    | some sp =>
      (weak_ptr.fromShared sp s.heap).map fun pr => ⟨pr.2, s.sps, pr.1 :: s.wps⟩
  | Cmd.weakCopy j =>
    match s.wps[j]? with
    | none => none
    | some w =>
      (weak_ptr.copyCtor w s.heap).map fun pr => ⟨pr.2, s.sps, pr.1 :: s.wps⟩
  | Cmd.weakMove j =>
    match s.wps[j]? with
    | none => none
    | some w =>
      let r := weak_ptr.moveCtor w
      some ⟨s.heap, s.sps, r.1 :: s.wps.set j r.2⟩
  | Cmd.weakAssignCopy dst src =>
    match s.wps[dst]?, s.wps[src]? with
    | some old, some srcv =>
      (weak_ptr.assignCopy old srcv s.heap).map fun pr =>
        ⟨pr.2, s.sps, s.wps.set dst pr.1⟩
    | _, _ => none
  | Cmd.weakAssignMove dst src =>
    match s.wps[dst]?, s.wps[src]? with
    | some old, some srcv =>
      if dst = src then
        some s
      else
        (weak_ptr.unlink old s.heap).map fun pr =>
          ⟨pr.2, s.sps, (s.wps.set dst srcv).set src ⟨none, none⟩⟩
    | _, _ => none
  | Cmd.weakAssignShared dst i =>
    match s.wps[dst]?, s.sps[i]? with
    | some old, some sp =>
      (weak_ptr.assignShared old sp s.heap).map fun pr =>
        ⟨pr.2, s.sps, s.wps.set dst pr.1⟩
    | _, _ => none
  | Cmd.destroyWeak j =>
    match s.wps[j]? with
    | none => none
    | some w =>
      (weak_ptr.unlink w s.heap).map fun pr => ⟨pr.2, s.sps, s.wps.eraseIdx j⟩
  | Cmd.lockWeak j =>
    match s.wps[j]? with
    | none => none
    | some w =>
      (weak_ptr.lock w s.heap).map fun pr => ⟨pr.2, pr.1 :: s.sps, s.wps⟩

/-- Execute a command list. -/
def run (s : State) : List Cmd → Option State
  | [] => some s
  | c :: cs => (step s c).bind fun s1 => run s1 cs

/-!
List helper lemmas used by the invariant proofs.
-/

/-- A `List.all` fact survives updating one slot with an element that
satisfies the predicate. -/
theorem all_set {α : Type} {l : List α} {p : α → Bool} {i : Nat} {v : α}
    (hl : l.all p = true) (hv : p v = true) : (l.set i v).all p = true := by
  rw [List.all_eq_true] at hl ⊢
  intro x hx
  rcases List.mem_or_eq_of_mem_set hx with hmem | rfl
  · exact hl x hmem
  · exact hv

/-- A `List.all` fact survives deleting one slot. -/
theorem all_eraseIdx {α : Type} {l : List α} {p : α → Bool} {i : Nat}
    (hl : l.all p = true) : (l.eraseIdx i).all p = true := by
  rw [List.all_eq_true] at hl ⊢
  intro x hx
  exact hl x (List.mem_of_mem_eraseIdx hx)

/-- A `List.all` fact applies to any successfully indexed element. -/
theorem all_get {α : Type} {l : List α} {p : α → Bool} {i : Nat} {v : α}
    (hl : l.all p = true) (hv : l[i]? = some v) : p v = true :=
  (List.all_eq_true.mp hl) v (List.getElem?_mem hv)

/-!
Result-shape lemmas for the pointer operations: the member values of each
operation's resulting handle, independent of the heap bookkeeping.
-/

/-- The copy constructor copies both members verbatim. -/
theorem sp_copy_fields {other : shared_ptr} {h : Heap} {sp2 : shared_ptr}
    {h2 : Heap} (he : shared_ptr.copyCtor other h = some (sp2, h2)) :
    sp2 = ⟨other.cb, other.obj⟩ := by
  obtain ⟨cb, obj⟩ := other
  cases cb with
  | none =>
    simp [shared_ptr.copyCtor] at he
    simp [← he.1]
  | some bid =>
    cases hm : h.mem bid with
    | none => simp [shared_ptr.copyCtor, hm] at he
    | some b =>
      simp [shared_ptr.copyCtor, hm] at he
      simp [← he.1]

/-- The aliasing constructor stores the given raw pointer as `obj`. -/
theorem sp_alias_fields {parent : shared_ptr} {p : Option Nat} {h : Heap}
    {sp2 : shared_ptr} {h2 : Heap}
    (he : shared_ptr.aliasCtor parent p h = some (sp2, h2)) :
    sp2 = ⟨parent.cb, p⟩ := by
  obtain ⟨cb, obj⟩ := parent
  cases cb with
  | none =>
    simp [shared_ptr.aliasCtor] at he
    simp [← he.1]
  | some bid =>
    cases hm : h.mem bid with
    | none => simp [shared_ptr.aliasCtor, hm] at he
    | some b =>
      simp [shared_ptr.aliasCtor, hm] at he
      simp [← he.1]

/-- `shared_ptr::unlink` always empties the handle. -/
theorem sp_unlink_fields {sp : shared_ptr} {h : Heap} {sp2 : shared_ptr}
    {h2 : Heap} (he : shared_ptr.unlink sp h = some (sp2, h2)) :
    sp2 = ⟨none, none⟩ := by
  obtain ⟨cb, obj⟩ := sp
  cases cb with
  | none =>
    simp [shared_ptr.unlink] at he
    simp [← he.1]
  | some bid =>
    cases hm : h.mem bid with
    | none => simp [shared_ptr.unlink, hm] at he
    | some b =>
      simp [shared_ptr.unlink, hm] at he
      simp [← he.1]

/-- Copy assignment leaves the destination holding the source's members. -/
theorem sp_assignCopy_fields {self other : shared_ptr} {h : Heap}
    {sp2 : shared_ptr} {h2 : Heap}
    (he : shared_ptr.assignCopy self other h = some (sp2, h2)) :
    sp2 = ⟨other.cb, other.obj⟩ := by
  unfold shared_ptr.assignCopy at he
  cases hc : shared_ptr.copyCtor other h with
  | none => rw [hc] at he; simp at he
  | some pr =>
    obtain ⟨tmp, h1⟩ := pr
    rw [hc] at he
    simp only [Option.some_bind] at he
    cases hu : shared_ptr.unlink self h1 with
    | none => rw [hu] at he; simp at he
    | some pr2 =>
      rw [hu] at he
      simp only [Option.map_some', Option.some.injEq, Prod.mk.injEq] at he
      have hsh := sp_copy_fields hc
      rw [← he.1, hsh]

/-- `resetRaw` ends in the freshly built handle (success) or the empty
handle (allocation failure). -/
theorem sp_resetRaw_fields {self : shared_ptr} {p : Option Nat}
    {allocOk : Bool} {h : Heap} {tr : Bool × shared_ptr × Heap}
    (he : shared_ptr.resetRaw self p allocOk h = some tr) :
    (∃ bid, tr.2.1 = ⟨some bid, p⟩) ∨ tr.2.1 = ⟨none, none⟩ := by
  unfold shared_ptr.resetRaw at he
  cases hu : shared_ptr.unlink self h with
  | none => rw [hu] at he; simp at he
  | some pr =>
    rw [hu] at he
    simp only [Option.map_some', Option.some.injEq] at he
    unfold shared_ptr.make_cb at he
    cases allocOk with
    | true =>
      simp only [if_pos] at he
      refine Or.inl ⟨pr.2.next, ?_⟩
      rw [← he]
      simp [Heap.alloc]
    | false =>
      simp only [Bool.false_eq_true, if_neg, not_false_eq_true] at he
      right
      rw [← he]
      simp only
      exact sp_unlink_fields hu

/-- `weak_ptr` construction from an owner copies both members. -/
theorem wp_fromShared_fields {sp : shared_ptr} {h : Heap} {w2 : weak_ptr}
    {h2 : Heap} (he : weak_ptr.fromShared sp h = some (w2, h2)) :
    w2 = ⟨sp.cb, sp.obj⟩ := by
  obtain ⟨cb, obj⟩ := sp
  cases cb with
  | none =>
    simp [weak_ptr.fromShared] at he
    simp [← he.1]
  | some bid =>
    cases hm : h.mem bid with
    | none => simp [weak_ptr.fromShared, hm] at he
    | some b =>
      simp [weak_ptr.fromShared, hm] at he
      simp [← he.1]

/-- The `weak_ptr` copy constructor copies both members. -/
theorem wp_copy_fields {other : weak_ptr} {h : Heap} {w2 : weak_ptr}
    {h2 : Heap} (he : weak_ptr.copyCtor other h = some (w2, h2)) :
    w2 = ⟨other.cb, other.obj⟩ := by
  obtain ⟨cb, obj⟩ := other
  cases cb with
  | none =>
    simp [weak_ptr.copyCtor] at he
    simp [← he.1]
  | some bid =>
    cases hm : h.mem bid with
    | none => simp [weak_ptr.copyCtor, hm] at he
    | some b =>
      simp [weak_ptr.copyCtor, hm] at he
      simp [← he.1]

/-- `weak_ptr::unlink` always empties the handle. -/
theorem wp_unlink_fields {w : weak_ptr} {h : Heap} {w2 : weak_ptr}
    {h2 : Heap} (he : weak_ptr.unlink w h = some (w2, h2)) :
    w2 = ⟨none, none⟩ := by
  obtain ⟨cb, obj⟩ := w
  cases cb with
  | none =>
    simp [weak_ptr.unlink] at he
    simp [← he.1]
  | some bid =>
    cases hm : h.mem bid with
    | none => simp [weak_ptr.unlink, hm] at he
    | some b =>
      simp [weak_ptr.unlink, hm] at he
      simp [← he.1]

/-- Weak copy assignment leaves the destination holding the source's
members. -/
theorem wp_assignCopy_fields {self other : weak_ptr} {h : Heap}
    {w2 : weak_ptr} {h2 : Heap}
    (he : weak_ptr.assignCopy self other h = some (w2, h2)) :
    w2 = ⟨other.cb, other.obj⟩ := by
  unfold weak_ptr.assignCopy at he
  cases hc : weak_ptr.copyCtor other h with
  | none => rw [hc] at he; simp at he
  | some pr =>
    obtain ⟨tmp, h1⟩ := pr
    rw [hc] at he
    simp only [Option.some_bind] at he
    cases hu : weak_ptr.unlink self h1 with
    | none => rw [hu] at he; simp at he
    | some pr2 =>
      rw [hu] at he
      simp only [Option.map_some', Option.some.injEq, Prod.mk.injEq] at he
      have hsh := wp_copy_fields hc
      rw [← he.1, hsh]

/-- Assignment from an owner leaves the observer holding the owner's
members. -/
theorem wp_assignShared_fields {self : weak_ptr} {sp : shared_ptr} {h : Heap}
    {w2 : weak_ptr} {h2 : Heap}
    (he : weak_ptr.assignShared self sp h = some (w2, h2)) :
    w2 = ⟨sp.cb, sp.obj⟩ := by
  unfold weak_ptr.assignShared at he
  cases hu : weak_ptr.unlink self h with
  | none => rw [hu] at he; simp at he
  | some pr =>
    rw [hu] at he
    obtain ⟨cb, obj⟩ := sp
    cases cb with
    | none =>
      simp at he
      simp [← he.1]
    | some bid =>
      cases hm : pr.2.mem bid with
      | none => simp [hm] at he
      | some b =>
        simp [hm] at he
        simp [← he.1]

/-- `lock` yields either a handle with the observer's members or the
empty handle. -/
theorem wp_lock_fields {w : weak_ptr} {h : Heap} {sp2 : shared_ptr}
    {h2 : Heap} (he : weak_ptr.lock w h = some (sp2, h2)) :
    sp2 = ⟨w.cb, w.obj⟩ ∨ sp2 = ⟨none, none⟩ := by
  obtain ⟨cb, obj⟩ := w
  cases cb with
  | none =>
    simp [weak_ptr.lock] at he
    exact Or.inr (by simp [← he.1])
  | some bid =>
    cases hm : h.mem bid with
    | none => simp [weak_ptr.lock, hm] at he
    | some b =>
      simp [weak_ptr.lock, hm] at he
      by_cases hs : b.strong_ref = 0
      · simp [hs] at he
        exact Or.inr (by simp [← he.1])
      · simp [hs] at he
        exact Or.inl (by simp [← he.1])

/-!
The null-pairing invariant (spec §3): the control-block pointer is null
iff the accessible value pointer is null.  It holds for every handle in
programs that avoid the three code paths that break it: the
`shared_ptr(std::nullptr_t)` constructor, the aliasing constructor, and
adopting a null raw pointer in `shared_ptr(T*, Deleter)` / `reset(T*,
Deleter)`.
-/

/-- The null-pairing predicate for an owning pointer. -/
def spOk (sp : shared_ptr) : Bool := sp.cb.isSome == sp.obj.isSome

/-- The null-pairing predicate for an observing pointer. -/
def wpOk (w : weak_ptr) : Bool := w.cb.isSome == w.obj.isSome

/-- Commands staying clear of the three null-pairing-breaking paths. -/
def plainCmd : Cmd → Bool
  | Cmd.newFromNullptr => false
  | Cmd.aliasFrom _ _ => false
  | Cmd.newFromRaw p _ => p.isSome
  | Cmd.resetRawSp _ p _ => p.isSome
  | _ => true

/-- One plain command preserves the null-pairing invariant of every live
handle. -/
theorem step_plain {c : Cmd} {s s' : State} (hc : plainCmd c = true)
    (hsp : s.sps.all spOk = true) (hwp : s.wps.all wpOk = true)
    (hstep : step s c = some s') :
    s'.sps.all spOk = true ∧ s'.wps.all wpOk = true := by
  cases c with
  | newDefault =>
    simp only [step] at hstep
    obtain rfl := Option.some.inj hstep
    exact ⟨by simp [List.all_cons, spOk, shared_ptr.mk0, hsp], hwp⟩
  | newFromNullptr => simp [plainCmd] at hc
  | newFromRaw p allocOk =>
    simp only [plainCmd] at hc
    simp only [step, shared_ptr.fromRaw, shared_ptr.make_cb] at hstep
    cases allocOk with
    | true =>
      simp only [if_pos] at hstep
      obtain rfl := Option.some.inj hstep
      refine ⟨?_, hwp⟩
      simp [List.all_cons, spOk, hsp, hc]
    | false =>
      simp only [Bool.false_eq_true, if_neg, not_false_eq_true] at hstep
      obtain rfl := Option.some.inj hstep
      exact ⟨hsp, hwp⟩
  | newMakeShared =>
    simp only [step] at hstep
    obtain rfl := Option.some.inj hstep
    refine ⟨?_, hwp⟩
    simp [List.all_cons, make_shared, Heap.alloc, spOk, hsp]
  | copyFrom i =>
    simp only [step] at hstep
    cases hi : s.sps[i]? with
    | none => rw [hi] at hstep; simp at hstep
    | some sp =>
      rw [hi] at hstep
      simp only at hstep
      cases hcp : shared_ptr.copyCtor sp s.heap with
      | none => rw [hcp] at hstep; simp at hstep
      | some pr =>
        obtain ⟨sp2, h2⟩ := pr
        rw [hcp] at hstep
        simp only [Option.map_some', Option.some.injEq] at hstep
        obtain rfl := hstep
        refine ⟨?_, hwp⟩
        have hsh := sp_copy_fields hcp
        have hok : spOk sp = true := all_get hsp hi
        simp only [List.all_cons, hsh, Bool.and_eq_true]
        exact ⟨by simpa [spOk] using hok, hsp⟩
  | moveFrom i =>
    simp only [step] at hstep
    cases hi : s.sps[i]? with
    | none => rw [hi] at hstep; simp at hstep
    | some sp =>
      rw [hi] at hstep
      simp only at hstep
      obtain rfl := Option.some.inj hstep
      refine ⟨?_, hwp⟩
      have hok : spOk sp = true := all_get hsp hi
      simp only [shared_ptr.moveCtor, List.all_cons, Bool.and_eq_true]
      constructor
      · simpa [spOk] using hok
      · exact all_set hsp (by simp [spOk])
  | aliasFrom i p => simp [plainCmd] at hc
  | assignCopySp dst src =>
    simp only [step] at hstep
    cases hd : s.sps[dst]? with
    | none => rw [hd] at hstep; simp at hstep
    | some old =>
      cases hs2 : s.sps[src]? with
      | none => rw [hd, hs2] at hstep; simp at hstep
      | some srcv =>
        rw [hd, hs2] at hstep
        simp only at hstep
        cases ha : shared_ptr.assignCopy old srcv s.heap with
        | none => rw [ha] at hstep; simp at hstep
        | some pr =>
          obtain ⟨sp2, h2⟩ := pr
          rw [ha] at hstep
          simp only [Option.map_some', Option.some.injEq] at hstep
          obtain rfl := hstep
          refine ⟨?_, hwp⟩
          have hsh := sp_assignCopy_fields ha
          have hok : spOk srcv = true := all_get hsp hs2
          exact all_set hsp (by rw [hsh]; simpa [spOk] using hok)
  | assignMoveSp dst src =>
    simp only [step] at hstep
    cases hd : s.sps[dst]? with
    | none => rw [hd] at hstep; simp at hstep
    | some old =>
      cases hs2 : s.sps[src]? with
      | none => rw [hd, hs2] at hstep; simp at hstep
      | some srcv =>
        rw [hd, hs2] at hstep
        simp only at hstep
        by_cases hds : dst = src
        · rw [if_pos hds] at hstep
          obtain rfl := Option.some.inj hstep
          exact ⟨hsp, hwp⟩
        · rw [if_neg hds] at hstep
          cases hu : shared_ptr.unlink old s.heap with
          | none => rw [hu] at hstep; simp at hstep
          | some pr =>
            rw [hu] at hstep
            simp only [Option.map_some', Option.some.injEq] at hstep
            obtain rfl := hstep
            refine ⟨?_, hwp⟩
            have hok : spOk srcv = true := all_get hsp hs2
            exact all_set (all_set hsp hok) (by simp [spOk])
  | resetSp i =>
    simp only [step] at hstep
    cases hi : s.sps[i]? with
    | none => rw [hi] at hstep; simp at hstep
    | some sp =>
      rw [hi] at hstep
      simp only at hstep
      cases hu : shared_ptr.unlink sp s.heap with
      | none => rw [hu] at hstep; simp at hstep
      | some pr =>
        obtain ⟨sp2, h2⟩ := pr
        rw [hu] at hstep
        simp only [Option.map_some', Option.some.injEq] at hstep
        obtain rfl := hstep
        refine ⟨?_, hwp⟩
        have hsh := sp_unlink_fields hu
        exact all_set hsp (by rw [hsh]; simp [spOk])
  | resetRawSp i p allocOk =>
    simp only [plainCmd] at hc
    simp only [step] at hstep
    cases hi : s.sps[i]? with
    | none => rw [hi] at hstep; simp at hstep
    | some sp =>
      rw [hi] at hstep
      simp only at hstep
      cases hr : shared_ptr.resetRaw sp p allocOk s.heap with
      | none => rw [hr] at hstep; simp at hstep
      | some tr =>
        rw [hr] at hstep
        simp only [Option.map_some', Option.some.injEq] at hstep
        obtain rfl := hstep
        refine ⟨?_, hwp⟩
        rcases sp_resetRaw_fields hr with ⟨bid, hsh⟩ | hsh
        · exact all_set hsp (by rw [hsh]; simp [spOk, hc])
        · exact all_set hsp (by rw [hsh]; simp [spOk])
  | destroySp i =>
    simp only [step] at hstep
    cases hi : s.sps[i]? with
    | none => rw [hi] at hstep; simp at hstep
    | some sp =>
      rw [hi] at hstep
      simp only at hstep
      cases hu : shared_ptr.unlink sp s.heap with
      | none => rw [hu] at hstep; simp at hstep
      | some pr =>
        rw [hu] at hstep
        simp only [Option.map_some', Option.some.injEq] at hstep
        obtain rfl := hstep
        exact ⟨all_eraseIdx hsp, hwp⟩
  | newWeakFromShared i =>
    simp only [step] at hstep
    cases hi : s.sps[i]? with
    | none => rw [hi] at hstep; simp at hstep
    | some sp =>
      rw [hi] at hstep
      simp only at hstep
      cases hf : weak_ptr.fromShared sp s.heap with
      | none => rw [hf] at hstep; simp at hstep
      | some pr =>
        obtain ⟨w2, h2⟩ := pr
        rw [hf] at hstep
        simp only [Option.map_some', Option.some.injEq] at hstep
        obtain rfl := hstep
        refine ⟨hsp, ?_⟩
        have hsh := wp_fromShared_fields hf
        have hok : spOk sp = true := all_get hsp hi
        simp only [List.all_cons, hsh, Bool.and_eq_true]
        exact ⟨by simpa [spOk, wpOk] using hok, hwp⟩
  | weakCopy j =>
    simp only [step] at hstep
    cases hj : s.wps[j]? with
    | none => rw [hj] at hstep; simp at hstep
    | some w =>
      rw [hj] at hstep
      simp only at hstep
      cases hcp : weak_ptr.copyCtor w s.heap with
      | none => rw [hcp] at hstep; simp at hstep
      | some pr =>
        obtain ⟨w2, h2⟩ := pr
        rw [hcp] at hstep
        simp only [Option.map_some', Option.some.injEq] at hstep
        obtain rfl := hstep
        refine ⟨hsp, ?_⟩
        have hsh := wp_copy_fields hcp
        have hok : wpOk w = true := all_get hwp hj
        simp only [List.all_cons, hsh, Bool.and_eq_true]
        exact ⟨by simpa [wpOk] using hok, hwp⟩
  | weakMove j =>
    simp only [step] at hstep
    cases hj : s.wps[j]? with
    | none => rw [hj] at hstep; simp at hstep
    | some w =>
      rw [hj] at hstep
      simp only at hstep
      obtain rfl := Option.some.inj hstep
      refine ⟨hsp, ?_⟩
      have hok : wpOk w = true := all_get hwp hj
      simp only [weak_ptr.moveCtor, List.all_cons, Bool.and_eq_true]
      constructor
      · simpa [wpOk] using hok
      · exact all_set hwp (by simp [wpOk])
  | weakAssignCopy dst src =>
    simp only [step] at hstep
    cases hd : s.wps[dst]? with
    | none => rw [hd] at hstep; simp at hstep
    | some old =>
      cases hs2 : s.wps[src]? with
      | none => rw [hd, hs2] at hstep; simp at hstep
      | some srcv =>
        rw [hd, hs2] at hstep
        simp only at hstep
        cases ha : weak_ptr.assignCopy old srcv s.heap with
        | none => rw [ha] at hstep; simp at hstep
        | some pr =>
          obtain ⟨w2, h2⟩ := pr
          rw [ha] at hstep
          simp only [Option.map_some', Option.some.injEq] at hstep
          obtain rfl := hstep
          refine ⟨hsp, ?_⟩
          have hsh := wp_assignCopy_fields ha
          have hok : wpOk srcv = true := all_get hwp hs2
          exact all_set hwp (by rw [hsh]; simpa [wpOk] using hok)
  | weakAssignMove dst src =>
    simp only [step] at hstep
    cases hd : s.wps[dst]? with
    | none => rw [hd] at hstep; simp at hstep
    | some old =>
      cases hs2 : s.wps[src]? with
      | none => rw [hd, hs2] at hstep; simp at hstep
      | some srcv =>
        rw [hd, hs2] at hstep
        simp only at hstep
        by_cases hds : dst = src
        · rw [if_pos hds] at hstep
          obtain rfl := Option.some.inj hstep
          exact ⟨hsp, hwp⟩
        · rw [if_neg hds] at hstep
          cases hu : weak_ptr.unlink old s.heap with
          | none => rw [hu] at hstep; simp at hstep
          | some pr =>
            rw [hu] at hstep
            simp only [Option.map_some', Option.some.injEq] at hstep
            obtain rfl := hstep
            refine ⟨hsp, ?_⟩
            have hok : wpOk srcv = true := all_get hwp hs2
            exact all_set (all_set hwp hok) (by simp [wpOk])
  | weakAssignShared dst i =>
    simp only [step] at hstep
    cases hd : s.wps[dst]? with
    | none => rw [hd] at hstep; simp at hstep
    | some old =>
      cases hi : s.sps[i]? with
      | none => rw [hd, hi] at hstep; simp at hstep
      | some sp =>
        rw [hd, hi] at hstep
        simp only at hstep
        cases ha : weak_ptr.assignShared old sp s.heap with
        | none => rw [ha] at hstep; simp at hstep
        | some pr =>
          obtain ⟨w2, h2⟩ := pr
          rw [ha] at hstep
          simp only [Option.map_some', Option.some.injEq] at hstep
          obtain rfl := hstep
          refine ⟨hsp, ?_⟩
          have hsh := wp_assignShared_fields ha
          have hok : spOk sp = true := all_get hsp hi
          exact all_set hwp (by rw [hsh]; simpa [spOk, wpOk] using hok)
  | destroyWeak j =>
    simp only [step] at hstep
    cases hj : s.wps[j]? with
    | none => rw [hj] at hstep; simp at hstep
    | some w =>
      rw [hj] at hstep
      simp only at hstep
      cases hu : weak_ptr.unlink w s.heap with
      | none => rw [hu] at hstep; simp at hstep
      | some pr =>
        rw [hu] at hstep
        simp only [Option.map_some', Option.some.injEq] at hstep
        obtain rfl := hstep
        exact ⟨hsp, all_eraseIdx hwp⟩
  | lockWeak j =>
    simp only [step] at hstep
    cases hj : s.wps[j]? with
    | none => rw [hj] at hstep; simp at hstep
    | some w =>
      rw [hj] at hstep
      simp only at hstep
      cases hl : weak_ptr.lock w s.heap with
      | none => rw [hl] at hstep; simp at hstep
      | some pr =>
        obtain ⟨sp2, h2⟩ := pr
        rw [hl] at hstep
        simp only [Option.map_some', Option.some.injEq] at hstep
        obtain rfl := hstep
        refine ⟨?_, hwp⟩
        have hok : wpOk w = true := all_get hwp hj
        rcases wp_lock_fields hl with hsh | hsh
        · simp only [List.all_cons, hsh, Bool.and_eq_true]
          exact ⟨by simpa [spOk, wpOk] using hok, hsp⟩
        · simp only [List.all_cons, hsh, Bool.and_eq_true]
          exact ⟨by simp [spOk], hsp⟩

/-- Running any list of plain commands preserves the null-pairing
invariant. -/
theorem run_plain {cmds : List Cmd} :
    ∀ {s s' : State}, run s cmds = some s' →
    cmds.all plainCmd = true →
    s.sps.all spOk = true → s.wps.all wpOk = true →
    s'.sps.all spOk = true ∧ s'.wps.all wpOk = true := by
  induction cmds with
  | nil =>
    intro s s' hr _ h1 h2
    obtain rfl := Option.some.inj hr
    exact ⟨h1, h2⟩
  | cons c cs ih =>
    intro s s' hr hall h1 h2
    simp only [List.all_cons, Bool.and_eq_true] at hall
    simp only [run] at hr
    cases hs1 : step s c with
    | none => rw [hs1] at hr; simp at hr
    | some s1 =>
      rw [hs1] at hr
      simp only [Option.some_bind] at hr
      obtain ⟨g1, g2⟩ := step_plain hall.1 h1 h2 hs1
      exact ih hr hall.2 g1 g2

/-!
Claim theorems.
-/

/-- C1 (counterexample): two owning pointers with equal accessible value
pointers but distinct control blocks — here two aliasing pointers into
two different `make_shared` objects, both exposing address 9 — compare
unequal under `operator==`, although the claim requires `a == b` to be
true whenever `a.get() == b.get()`. -/
theorem C1_counterexample :
    (run State.init [Cmd.newMakeShared, Cmd.newMakeShared,
        Cmd.aliasFrom 0 (some 9), Cmd.aliasFrom 2 (some 9)]).map
      (fun s => (s.sps[0]?, s.sps[1]?)) =
      some (some ⟨some 0, some 9⟩, some ⟨some 1, some 9⟩)
    ∧ shared_ptr.get ⟨some 0, some 9⟩ = shared_ptr.get ⟨some 1, some 9⟩
    ∧ shared_ptr.opEq ⟨some 0, some 9⟩ ⟨some 1, some 9⟩ = false := by
  decide

/-- C1 (amended): `operator==` on owning pointers returns true iff both
the control-block pointers and the accessible value pointers are equal —
block identity does participate in the comparison. -/
theorem C1_amended (a b : shared_ptr) :
    shared_ptr.opEq a b = true ↔ (a.cb = b.cb ∧ a.obj = b.obj) := by
  simp [shared_ptr.opEq, Bool.and_eq_true, beq_iff_eq]

/-- C2 (counterexample): constructing an owning pointer from a null raw
pointer (`shared_ptr<T>((T*)nullptr)`) allocates a control block, so the
control-block pointer is non-null while the accessible value pointer is
null, violating the claimed iff on a non-aliasing construction path. -/
theorem C2_counterexample :
    (run State.init [Cmd.newFromRaw none true]).bind (fun s => s.sps[0]?) =
      some ⟨some 0, none⟩
    ∧ spOk ⟨some 0, none⟩ = false := by
  decide

/-- C2 (amended): in every program that avoids the aliasing constructor,
the `shared_ptr(std::nullptr_t)` constructor, and adopting a null raw
pointer in construction or `reset`, every live owning pointer satisfies
the invariant: its control-block pointer is null iff its accessible
value pointer is null (`spOk`). -/
theorem C2_amended (cmds : List Cmd) (hall : cmds.all plainCmd = true)
    (s : State) (hrun : run State.init cmds = some s) :
    s.sps.all spOk = true :=
  (run_plain hrun hall rfl rfl).1

/-- C2 (witness): a concrete plain program — `make_shared`, a copy, a
weak observer, a lock and a reset — ends with every live owning pointer
satisfying the null-pairing invariant. -/
theorem C2_amended_witness :
    ((run State.init [Cmd.newMakeShared, Cmd.copyFrom 0, Cmd.newWeakFromShared 0,
        Cmd.lockWeak 0, Cmd.resetSp 1]).getD State.init).sps.all spOk = true :=
  C2_amended [Cmd.newMakeShared, Cmd.copyFrom 0, Cmd.newWeakFromShared 0,
    Cmd.lockWeak 0, Cmd.resetSp 1] (by decide) _ rfl

/-- C3 (evaluation at the failing input): `shared_ptr<T> s1(nullptr);
shared_ptr<T> s2(s1); weak_ptr<T> w(s2); s1.~shared_ptr();
s2.~shared_ptr();` — the control block is created with `strong_ref == 0`
by the `nullptr_t` constructor, and the payload release `cb->unlink()`
runs twice for the same block (once per owner destruction), with no
1-to-0 strong-count transition at the second release. -/
theorem C3_eval :
    (run State.init [Cmd.newFromNullptr, Cmd.copyFrom 0, Cmd.newWeakFromShared 0,
        Cmd.destroySp 0, Cmd.destroySp 0]).map (fun s => s.heap.events) =
      some [Event.release 0, Event.release 0] := by
  decide

/-- C4 (evaluation at the failing input): `shared_ptr<T> s(nullptr);
weak_ptr<T> w(s); w.~weak_ptr();` — the weak destructor finds
`strong_ref + weak_ref == 0` (the block was born with `strong_ref == 0`)
and reclaims the block's memory although the payload release never
ran. -/
theorem C4_eval :
    (run State.init [Cmd.newFromNullptr, Cmd.newWeakFromShared 0,
        Cmd.destroyWeak 0]).map (fun s => (s.heap.events, s.heap.mem 0)) =
      some ([Event.dealloc 0], none) := by
  decide

/-- C5 (evaluation at the failing input): after `shared_ptr<T> s(nullptr);`
the owner `s` references control block 0, so one owning pointer is alive
and referencing the block, yet `s.use_count()` returns 0 — the
`nullptr_t` constructor allocated the block without incrementing
`strong_ref`. -/
theorem C5_eval :
    (run State.init [Cmd.newFromNullptr]).map
      (fun s => (s.sps.map (fun sp => shared_ptr.use_count sp s.heap),
                 s.sps.countP (fun sp => sp.cb == some 0))) =
      some ([some 0], 1) := by
  decide

/-- C6 (counterexample): an observer of an aliasing pointer whose stored
value pointer is null — `auto m = make_shared<T>(); shared_ptr<T> a(m,
nullptr); weak_ptr<T> w(a);` has `strong_ref == 2` before the call, and
`w.lock()` increments the count to 3 (promotion succeeded), yet the
returned owning pointer's boolean test is false, contradicting the
claimed iff between a true boolean test and a nonzero strong count. -/
theorem C6_counterexample :
    (run State.init [Cmd.newMakeShared, Cmd.aliasFrom 0 none,
        Cmd.newWeakFromShared 0]).map (fun s => s.heap.mem 0) =
      some (some ⟨2, 1⟩)
    ∧ (run State.init [Cmd.newMakeShared, Cmd.aliasFrom 0 none,
        Cmd.newWeakFromShared 0, Cmd.lockWeak 0]).map
        (fun s => (s.sps[0]?.map shared_ptr.opBool, s.heap.mem 0)) =
      some (some false, some ⟨3, 1⟩) := by
  decide

/-- C6 (amended): `lock()` succeeds — returns an owning pointer attached
to the observer's block with `strong_ref` incremented, and with
`use_count()` reflecting the increment — iff the strong count was nonzero
at the moment of the call, and on failure (or a null block pointer) it
returns the empty owning pointer with the heap unchanged; however the
returned pointer's boolean test equals the non-nullness of the observer's
stored value pointer, not the success of the promotion. -/
theorem C6_amended (w : weak_ptr) (h : Heap) :
    (w.cb = none → weak_ptr.lock w h = some (⟨none, none⟩, h))
    ∧ (∀ bid b, w.cb = some bid → h.mem bid = some b →
        (b.strong_ref = 0 → weak_ptr.lock w h = some (⟨none, none⟩, h))
        ∧ (b.strong_ref ≠ 0 →
            weak_ptr.lock w h =
              some (⟨some bid, w.obj⟩, h.set bid ⟨b.strong_ref + 1, b.weak_ref⟩)
            ∧ shared_ptr.use_count ⟨some bid, w.obj⟩
                (h.set bid ⟨b.strong_ref + 1, b.weak_ref⟩) = some (b.strong_ref + 1)
            ∧ shared_ptr.opBool ⟨some bid, w.obj⟩ = w.obj.isSome)) := by
  constructor
  · intro hn
    unfold weak_ptr.lock
    rw [hn]
  · intro bid b hcb hm
    constructor
    · intro h0
      simp [weak_ptr.lock, hcb, hm, h0]
    · intro hne
      refine ⟨?_, ?_, rfl⟩
      · simp [weak_ptr.lock, hcb, hm, hne]
      · simp [shared_ptr.use_count, Heap.set]

/-- C6 (witness): locking a live observer of a `make_shared` object
(strong count 1, weak count 1) yields the owning pointer for block 0 and
bumps the strong count to 2. -/
theorem C6_amended_witness :
    weak_ptr.lock ⟨some 0, some 0⟩
        ((run State.init [Cmd.newMakeShared, Cmd.newWeakFromShared 0]).getD
          State.init).heap =
      some (⟨some 0, some 0⟩,
        ((run State.init [Cmd.newMakeShared, Cmd.newWeakFromShared 0]).getD
          State.init).heap.set 0 ⟨2, 1⟩) :=
  (((C6_amended ⟨some 0, some 0⟩
      ((run State.init [Cmd.newMakeShared, Cmd.newWeakFromShared 0]).getD
        State.init).heap).2 0 ⟨1, 1⟩ rfl rfl).2 (by decide)).1

/-- C7: when control-block allocation fails, `make_cb` invokes the
deleter on the adopted pointer exactly once (the trace is extended by
exactly one `deleterCall p` event and nothing else) and propagates the
failure with the pointer under construction never receiving a block;
`reset(p, d)` on the same failure leaves the pointer empty. -/
theorem C7_alloc_failure (p : Option Nat) (h : Heap) :
    shared_ptr.make_cb p false h = (none, h.log (Event.deleterCall p))
    ∧ (∀ sp sp1 h1, shared_ptr.unlink sp h = some (sp1, h1) →
        shared_ptr.resetRaw sp p false h =
          some (false, sp1, h1.log (Event.deleterCall p))
        ∧ sp1 = ⟨none, none⟩) := by
  refine ⟨rfl, ?_⟩
  intro sp sp1 h1 hu
  refine ⟨?_, sp_unlink_fields hu⟩
  unfold shared_ptr.resetRaw
  rw [hu]
  simp [shared_ptr.make_cb]

/-- C7 (witness): resetting an empty owning pointer to address 5 under
allocation failure runs the deleter on address 5 once and leaves the
pointer empty. -/
theorem C7_witness :
    shared_ptr.resetRaw ⟨none, none⟩ (some 5) false Heap.empty =
      some (false, ⟨none, none⟩, Heap.empty.log (Event.deleterCall (some 5))) :=
  ((C7_alloc_failure (some 5) Heap.empty).2 ⟨none, none⟩ ⟨none, none⟩
    Heap.empty rfl).1

/-- C8: move construction transfers the control-block and value pointers
to the destination unchanged (so the destination's `use_count()` equals
the source's previous `use_count()`, no counter being touched) and leaves
the source empty with `get() == nullptr` and `use_count() == 0`. -/
theorem C8_move (sp : shared_ptr) (h : Heap) :
    (shared_ptr.moveCtor sp).2 = ⟨none, none⟩
    ∧ shared_ptr.get (shared_ptr.moveCtor sp).2 = none
    ∧ shared_ptr.use_count (shared_ptr.moveCtor sp).2 h = some 0
    ∧ (shared_ptr.moveCtor sp).1.cb = sp.cb
    ∧ (shared_ptr.moveCtor sp).1.obj = sp.obj
    ∧ shared_ptr.use_count (shared_ptr.moveCtor sp).1 h = shared_ptr.use_count sp h :=
  ⟨rfl, rfl, rfl, rfl, rfl, rfl⟩

/-- C9: the aliasing constructor applied to an owner of a live block
(strong count ≥ 1) shares that block with the strong count incremented by
one, exposes exactly the given pointer `q` through `get()`, and
destroying the aliasing pointer decrements the same block's strong count
back (no release, since the original owner still holds it). -/
theorem C9_aliasing (h : Heap) (bid : Nat) (b : control_block) (p q : Option Nat)
    (hm : h.mem bid = some b) (hpos : 0 < b.strong_ref) :
    shared_ptr.aliasCtor ⟨some bid, p⟩ q h =
      some (⟨some bid, q⟩, h.set bid ⟨b.strong_ref + 1, b.weak_ref⟩)
    ∧ shared_ptr.get ⟨some bid, q⟩ = q
    ∧ (h.set bid ⟨b.strong_ref + 1, b.weak_ref⟩).mem bid =
        some ⟨b.strong_ref + 1, b.weak_ref⟩
    ∧ shared_ptr.unlink ⟨some bid, q⟩ (h.set bid ⟨b.strong_ref + 1, b.weak_ref⟩) =
        some (⟨none, none⟩,
          (h.set bid ⟨b.strong_ref + 1, b.weak_ref⟩).set bid
            ⟨b.strong_ref, b.weak_ref⟩) := by
  have hne : b.strong_ref ≠ 0 := Nat.pos_iff_ne_zero.mp hpos
  have hm2 : (h.set bid ⟨b.strong_ref + 1, b.weak_ref⟩).mem bid =
      some ⟨b.strong_ref + 1, b.weak_ref⟩ := by
    simp [Heap.set]
  refine ⟨?_, rfl, hm2, ?_⟩
  · simp [shared_ptr.aliasCtor, hm]
  · simp [shared_ptr.unlink, hm2, hne]

/-- C9 (witness): aliasing the single owner of a fresh `make_shared`
object (block 0, strong count 1) with value pointer 7 bumps the count to
2 and exposes address 7. -/
theorem C9_witness :
    shared_ptr.aliasCtor ⟨some 0, some 0⟩ (some 7) (make_shared Heap.empty).2 =
      some (⟨some 0, some 7⟩, (make_shared Heap.empty).2.set 0 ⟨2, 0⟩) :=
  (C9_aliasing (make_shared Heap.empty).2 0 ⟨1, 0⟩ (some 0) (some 7) rfl
    (by decide)).1

/-- C10: the implicit conversion `operator T*` returns exactly the same
value as `get()`, for every owning pointer — both are pure reads of the
accessible value pointer. -/
theorem C10_opRawPtr (sp : shared_ptr) :
    shared_ptr.opRawPtr sp = shared_ptr.get sp := rfl

/-!
The reference-counting discipline.  For programs that never use the
`shared_ptr(std::nullptr_t)` constructor — the one construction path that
creates a block whose strong count does not match its owner count — the
model maintains, for every control block: `strong_ref` equals the number
of live owning pointers referencing the block, `weak_ref` equals the
number of live observing pointers referencing it, the payload release
event is logged exactly once (precisely from the moment the strong count
reaches zero), and the deallocation event is logged exactly once, after
the release, when both counts have reached zero.
-/

/-- Number of live owning pointers referencing block `bid`. -/
def countSP (l : List shared_ptr) (bid : Nat) : Nat :=
  l.countP (fun sp => sp.cb == some bid)

/-- Number of live observing pointers referencing block `bid`. -/
def countWP (l : List weak_ptr) (bid : Nat) : Nat :=
  l.countP (fun w => w.cb == some bid)

/-- Whether an event concerns block `bid`. -/
def isFor (bid : Nat) : Event → Bool
  | Event.release b => b == bid
  | Event.dealloc b => b == bid
  | Event.deleterCall _ => false

/-- The subtrace of events concerning block `bid`. -/
def blockEvents (evs : List Event) (bid : Nat) : List Event :=
  evs.filter (isFor bid)

/-- Setting one slot changes a `countP` by swapping the old element's
contribution for the new one's. -/
theorem countP_set_add {α : Type} {l : List α} {i : Nat} {old : α} (v : α)
    (p : α → Bool) (hi : l[i]? = some old) :
    (l.set i v).countP p + (if p old = true then 1 else 0) =
      l.countP p + (if p v = true then 1 else 0) := by
  induction l generalizing i with
  | nil => simp at hi
  | cons a t ih =>
    cases i with
    | zero =>
      simp only [List.getElem?_cons_zero, Option.some.injEq] at hi
      subst hi
      simp only [List.set_cons_zero, List.countP_cons]
      omega
    | succ n =>
      simp only [List.getElem?_cons_succ] at hi
      simp only [List.set_cons_succ, List.countP_cons]
      have := ih hi
      omega

/-- Erasing one slot removes exactly the erased element's contribution to
a `countP`. -/
theorem countP_eraseIdx_add {α : Type} {l : List α} {i : Nat} {old : α}
    (p : α → Bool) (hi : l[i]? = some old) :
    (l.eraseIdx i).countP p + (if p old = true then 1 else 0) = l.countP p := by
  induction l generalizing i with
  | nil => simp at hi
  | cons a t ih =>
    cases i with
    | zero =>
      simp only [List.getElem?_cons_zero, Option.some.injEq] at hi
      subst hi
      simp only [List.eraseIdx_cons_zero, List.countP_cons]
    | succ n =>
      simp only [List.getElem?_cons_succ] at hi
      simp only [List.eraseIdx_cons_succ, List.countP_cons]
      have := ih hi
      omega

/-- An indexed element satisfying the predicate makes the count
positive. -/
theorem countP_pos_of_getElem {α : Type} {l : List α} {i : Nat} {v : α}
    (p : α → Bool) (hi : l[i]? = some v) (hv : p v = true) : 0 < l.countP p :=
  List.countP_pos_iff.mpr ⟨v, List.getElem?_mem hi, hv⟩

/-- Appending one event extends each block subtrace by that event when it
concerns the block. -/
theorem blockEvents_append (evs : List Event) (e : Event) (bid : Nat) :
    blockEvents (evs ++ [e]) bid =
      blockEvents evs bid ++ (if isFor bid e = true then [e] else []) := by
  simp only [blockEvents, List.filter_append]
  cases hif : isFor bid e <;> simp [List.filter, hif]

/-- The contribution of an owning pointer holding block `bid` to the
count of block `x`. -/
theorem contribSP (bid : Nat) {sp : shared_ptr} (hcb : sp.cb = some bid)
    (x : Nat) :
    (if (sp.cb == some x) = true then 1 else 0) =
      (if x = bid then 1 else 0) := by
  rw [hcb]
  by_cases h : x = bid
  · subst h; simp
  · rw [if_neg h, if_neg]
    intro hb
    exact h (Eq.symm (by simpa [beq_iff_eq] using hb))

/-- A detached owning pointer contributes to no count. -/
theorem contribSP_none (sp : shared_ptr) (hcb : sp.cb = none) (x : Nat) :
    (if (sp.cb == some x) = true then 1 else 0) = 0 := by
  rw [hcb]; simp

/-- The contribution of an observing pointer holding block `bid` to the
count of block `x`. -/
theorem contribWP (bid : Nat) {w : weak_ptr} (hcb : w.cb = some bid) (x : Nat) :
    (if (w.cb == some x) = true then 1 else 0) =
      (if x = bid then 1 else 0) := by
  rw [hcb]
  by_cases h : x = bid
  · subst h; simp
  · rw [if_neg h, if_neg]
    intro hb
    exact h (Eq.symm (by simpa [beq_iff_eq] using hb))

/-- A detached observing pointer contributes to no count. -/
theorem contribWP_none (w : weak_ptr) (hcb : w.cb = none) (x : Nat) :
    (if (w.cb == some x) = true then 1 else 0) = 0 := by
  rw [hcb]; simp

/-- The per-block bookkeeping invariant, for programs avoiding the
`nullptr_t` constructor: every live block's counters equal the numbers of
live handles referencing it, a live block has at least one handle, and
the event subtrace of each block is exactly dictated by its state —
empty while owners remain, one release once the strong count is zero,
release followed by deallocation once the block is gone. -/
structure HeapInv (h : Heap) (sps : List shared_ptr) (wps : List weak_ptr) :
    Prop where
  alive : ∀ bid b, h.mem bid = some b →
    bid < h.next ∧
    b.strong_ref = countSP sps bid ∧
    b.weak_ref = countWP wps bid ∧
    0 < b.strong_ref + b.weak_ref ∧
    blockEvents h.events bid =
      (if b.strong_ref = 0 then [Event.release bid] else [])
  dead : ∀ bid, bid < h.next → h.mem bid = none →
    blockEvents h.events bid = [Event.release bid, Event.dealloc bid] ∧
    countSP sps bid = 0 ∧ countWP wps bid = 0
  fresh : ∀ bid, h.next ≤ bid →
    h.mem bid = none ∧ blockEvents h.events bid = [] ∧
    countSP sps bid = 0 ∧ countWP wps bid = 0

/-- The initial state satisfies the bookkeeping invariant. -/
theorem HeapInv_init : HeapInv Heap.empty [] [] := by
  constructor
  · intro bid b hm
    simp [Heap.empty] at hm
  · intro bid hlt
    simp [Heap.empty] at hlt
  · intro bid _
    simp [Heap.empty, blockEvents, countSP, countWP]

/-- Heap update, read back. -/
theorem Heap.mem_set_def (h : Heap) (bid : Nat) (b : control_block) (x : Nat) :
    (h.set bid b).mem x = if x = bid then some b else h.mem x := rfl

/-- Heap update preserves the fresh-id counter. -/
theorem Heap.next_set_def (h : Heap) (bid : Nat) (b : control_block) :
    (h.set bid b).next = h.next := rfl

/-- Heap update preserves the trace. -/
theorem Heap.events_set_def (h : Heap) (bid : Nat) (b : control_block) :
    (h.set bid b).events = h.events := rfl

/-- Heap erasure, read back. -/
theorem Heap.mem_erase_def (h : Heap) (bid x : Nat) :
    (h.erase bid).mem x = if x = bid then none else h.mem x := rfl

/-- Heap erasure preserves the fresh-id counter. -/
theorem Heap.next_erase_def (h : Heap) (bid : Nat) : (h.erase bid).next = h.next := rfl

/-- Heap erasure preserves the trace. -/
theorem Heap.events_erase_def (h : Heap) (bid : Nat) :
    (h.erase bid).events = h.events := rfl

/-- Logging preserves the blocks. -/
theorem Heap.mem_log_def (h : Heap) (e : Event) (x : Nat) :
    (h.log e).mem x = h.mem x := rfl

/-- Logging preserves the fresh-id counter. -/
theorem Heap.next_log_def (h : Heap) (e : Event) : (h.log e).next = h.next := rfl

/-- Logging appends to the trace. -/
theorem Heap.events_log_def (h : Heap) (e : Event) :
    (h.log e).events = h.events ++ [e] := rfl

/-- Explicit form of `shared_ptr::unlink` on a handle holding a live
block with positive strong count: decrement, then release at zero, then
deallocate when both counters are zero. -/
theorem sp_unlink_eq {bid : Nat} {h : Heap} {b : control_block} (o : Option Nat)
    (hm : h.mem bid = some b) (hpos : 0 < b.strong_ref) :
    shared_ptr.unlink ⟨some bid, o⟩ h =
      some (⟨none, none⟩,
        if b.strong_ref - 1 = 0 then
          (if b.strong_ref - 1 + b.weak_ref = 0 then
            ((((h.set bid ⟨b.strong_ref - 1, b.weak_ref⟩).log
                (Event.release bid)).erase bid).log (Event.dealloc bid))
          else
            (h.set bid ⟨b.strong_ref - 1, b.weak_ref⟩).log (Event.release bid))
        else h.set bid ⟨b.strong_ref - 1, b.weak_ref⟩) := by
  simp only [shared_ptr.unlink, hm, gt_iff_lt, hpos, if_true]
  by_cases hn : b.strong_ref - 1 = 0
  · simp only [hn, if_true]
  · have hnw : ¬(b.strong_ref - 1 + b.weak_ref = 0) := by omega
    simp only [hn, hnw, if_false]

/-- Explicit form of `weak_ptr::unlink` on a handle holding a live
block: unguarded decrement of the weak count, then deallocation when both
counters are zero (no payload release). -/
theorem wp_unlink_eq {bid : Nat} {h : Heap} {b : control_block} (o : Option Nat)
    (hm : h.mem bid = some b) :
    weak_ptr.unlink ⟨some bid, o⟩ h =
      some (⟨none, none⟩,
        if b.strong_ref + (b.weak_ref - 1) = 0 then
          ((h.set bid ⟨b.strong_ref, b.weak_ref - 1⟩).erase bid).log
            (Event.dealloc bid)
        else h.set bid ⟨b.strong_ref, b.weak_ref - 1⟩) := by
  simp only [weak_ptr.unlink, hm, Option.map_some']

/-- Changing the handle environments without changing any per-block count
preserves the bookkeeping invariant. -/
theorem inv_env_congr {h : Heap} {sps1 sps2 : List shared_ptr}
    {wps1 wps2 : List weak_ptr} (hI : HeapInv h sps1 wps1)
    (hs : ∀ x, countSP sps2 x = countSP sps1 x)
    (hw : ∀ x, countWP wps2 x = countWP wps1 x) :
    HeapInv h sps2 wps2 := by
  constructor
  · intro bid b hm
    obtain ⟨h1, h2, h3, h4, h5⟩ := hI.alive bid b hm
    exact ⟨h1, by rw [hs]; exact h2, by rw [hw]; exact h3, h4, h5⟩
  · intro bid hlt hm
    obtain ⟨h1, h2, h3⟩ := hI.dead bid hlt hm
    exact ⟨h1, by rw [hs]; exact h2, by rw [hw]; exact h3⟩
  · intro bid hge
    obtain ⟨h1, h2, h3, h4⟩ := hI.fresh bid hge
    exact ⟨h1, h2, by rw [hs]; exact h3, by rw [hw]; exact h4⟩

/-- Attaching one more owning pointer to a live block with a nonzero
strong count (copy, aliasing or promotion), incrementing its strong
counter, preserves the bookkeeping invariant. -/
theorem inv_attach_sp {h : Heap} {sps1 sps2 : List shared_ptr}
    {wps1 : List weak_ptr} {bid : Nat} {b : control_block}
    (hI : HeapInv h sps1 wps1) (hm : h.mem bid = some b)
    (hpos : b.strong_ref ≠ 0)
    (hs : ∀ x, countSP sps2 x = countSP sps1 x + (if x = bid then 1 else 0)) :
    HeapInv (h.set bid ⟨b.strong_ref + 1, b.weak_ref⟩) sps2 wps1 := by
  obtain ⟨hlt, hstrong, hweak, _, hev⟩ := hI.alive bid b hm
  rw [if_neg hpos] at hev
  constructor
  · intro x bx hmx
    simp only [Heap.mem_set_def] at hmx
    by_cases hx : x = bid
    · subst hx
      rw [if_pos rfl] at hmx
      obtain rfl := Option.some.inj hmx
      refine ⟨hlt, ?_, hweak, by show 0 < b.strong_ref + 1 + b.weak_ref; omega, ?_⟩
      · simp only
        rw [hs, if_pos rfl, ← hstrong]
      · simp only [Heap.events_set_def]
        rw [if_neg (by omega)]
        exact hev
    · rw [if_neg hx] at hmx
      obtain ⟨hlt2, hstrong2, hweak2, htot2, hev2⟩ := hI.alive x bx hmx
      refine ⟨hlt2, ?_, hweak2, htot2, hev2⟩
      rw [hs, if_neg hx, Nat.add_zero]
      exact hstrong2
  · intro x hltx hmx
    simp only [Heap.mem_set_def, Heap.next_set_def] at hmx hltx
    by_cases hx : x = bid
    · subst hx
      rw [if_pos rfl] at hmx
      exact absurd hmx (by simp)
    · rw [if_neg hx] at hmx
      obtain ⟨he, hc1, hc2⟩ := hI.dead x hltx hmx
      exact ⟨he, by rw [hs, if_neg hx, Nat.add_zero]; exact hc1, hc2⟩
  · intro x hge
    simp only [Heap.next_set_def] at hge
    obtain ⟨hm0, he0, hc1, hc2⟩ := hI.fresh x hge
    have hx : x ≠ bid := by omega
    refine ⟨?_, he0, ?_, hc2⟩
    · simp only [Heap.mem_set_def]
      rw [if_neg hx]
      exact hm0
    · rw [hs, if_neg hx, Nat.add_zero]
      exact hc1

/-- Attaching one more observing pointer to a live block, incrementing
its weak counter, preserves the bookkeeping invariant. -/
theorem inv_attach_wp {h : Heap} {sps1 : List shared_ptr}
    {wps1 wps2 : List weak_ptr} {bid : Nat} {b : control_block}
    (hI : HeapInv h sps1 wps1) (hm : h.mem bid = some b)
    (hw : ∀ x, countWP wps2 x = countWP wps1 x + (if x = bid then 1 else 0)) :
    HeapInv (h.set bid ⟨b.strong_ref, b.weak_ref + 1⟩) sps1 wps2 := by
  obtain ⟨hlt, hstrong, hweak, _, hev⟩ := hI.alive bid b hm
  constructor
  · intro x bx hmx
    simp only [Heap.mem_set_def] at hmx
    by_cases hx : x = bid
    · subst hx
      rw [if_pos rfl] at hmx
      obtain rfl := Option.some.inj hmx
      refine ⟨hlt, hstrong, ?_,
        by show 0 < b.strong_ref + (b.weak_ref + 1); omega, ?_⟩
      · simp only
        rw [hw, if_pos rfl, ← hweak]
      · simp only [Heap.events_set_def]
        exact hev
    · rw [if_neg hx] at hmx
      obtain ⟨hlt2, hstrong2, hweak2, htot2, hev2⟩ := hI.alive x bx hmx
      refine ⟨hlt2, hstrong2, ?_, htot2, hev2⟩
      rw [hw, if_neg hx, Nat.add_zero]
      exact hweak2
  · intro x hltx hmx
    simp only [Heap.mem_set_def, Heap.next_set_def] at hmx hltx
    by_cases hx : x = bid
    · subst hx
      rw [if_pos rfl] at hmx
      exact absurd hmx (by simp)
    · rw [if_neg hx] at hmx
      obtain ⟨he, hc1, hc2⟩ := hI.dead x hltx hmx
      exact ⟨he, hc1, by rw [hw, if_neg hx, Nat.add_zero]; exact hc2⟩
  · intro x hge
    simp only [Heap.next_set_def] at hge
    obtain ⟨hm0, he0, hc1, hc2⟩ := hI.fresh x hge
    have hx : x ≠ bid := by omega
    refine ⟨?_, he0, hc1, ?_⟩
    · simp only [Heap.mem_set_def]
      rw [if_neg hx]
      exact hm0
    · rw [hw, if_neg hx, Nat.add_zero]
      exact hc2

/-- Allocating a fresh block with strong count 1 (the `make_cb` and
`make_shared` paths), with one new owning pointer referencing it,
preserves the bookkeeping invariant. -/
theorem inv_alloc1 {h : Heap} {sps1 sps2 : List shared_ptr}
    {wps1 : List weak_ptr} (hI : HeapInv h sps1 wps1)
    (hs : ∀ x, countSP sps2 x = countSP sps1 x + (if x = h.next then 1 else 0)) :
    HeapInv ((h.alloc ⟨0, 0⟩).2.set (h.alloc ⟨0, 0⟩).1 ⟨0 + 1, 0⟩) sps2 wps1 := by
  have hmem : ∀ x, ((h.alloc ⟨0, 0⟩).2.set (h.alloc ⟨0, 0⟩).1 ⟨0 + 1, 0⟩).mem x =
      if x = h.next then some ⟨0 + 1, 0⟩ else h.mem x := by
    intro x
    simp only [Heap.alloc, Heap.mem_set_def]
    by_cases hx : x = h.next <;> simp [hx]
  have hnext : ((h.alloc ⟨0, 0⟩).2.set (h.alloc ⟨0, 0⟩).1 ⟨0 + 1, 0⟩).next =
      h.next + 1 := rfl
  have hevs : ((h.alloc ⟨0, 0⟩).2.set (h.alloc ⟨0, 0⟩).1 ⟨0 + 1, 0⟩).events =
      h.events := rfl
  obtain ⟨hmf, hef, hc1f, hc2f⟩ := hI.fresh h.next (Nat.le_refl _)
  constructor
  · intro x bx hmx
    rw [hmem] at hmx
    by_cases hx : x = h.next
    · subst hx
      rw [if_pos rfl] at hmx
      obtain rfl := Option.some.inj hmx
      rw [hnext, hevs]
      refine ⟨by omega, ?_, ?_, by simp, ?_⟩
      · simp only
        rw [hs, if_pos rfl, hc1f]
      · simp only
        rw [hc2f]
      · rw [if_neg (by simp), hef]
    · rw [if_neg hx] at hmx
      obtain ⟨hlt2, hstrong2, hweak2, htot2, hev2⟩ := hI.alive x bx hmx
      rw [hnext, hevs]
      refine ⟨by omega, ?_, hweak2, htot2, hev2⟩
      rw [hs, if_neg hx, Nat.add_zero]
      exact hstrong2
  · intro x hltx hmx
    rw [hnext] at hltx
    rw [hmem] at hmx
    by_cases hx : x = h.next
    · subst hx
      rw [if_pos rfl] at hmx
      exact absurd hmx (by simp)
    · rw [if_neg hx] at hmx
      have hltx2 : x < h.next := by omega
      obtain ⟨he, hc1, hc2⟩ := hI.dead x hltx2 hmx
      rw [hevs]
      exact ⟨he, by rw [hs, if_neg hx, Nat.add_zero]; exact hc1, hc2⟩
  · intro x hge
    rw [hnext] at hge
    have hx : x ≠ h.next := by omega
    obtain ⟨hm0, he0, hc1, hc2⟩ := hI.fresh x (by omega)
    rw [hevs]
    refine ⟨?_, he0, ?_, hc2⟩
    · rw [hmem, if_neg hx]
      exact hm0
    · rw [hs, if_neg hx, Nat.add_zero]
      exact hc1

/-- Logging a direct deleter call (the allocation-failure path) touches
no block state and no block subtrace. -/
theorem inv_log_deleter {h : Heap} {sps1 : List shared_ptr}
    {wps1 : List weak_ptr} (p : Option Nat) (hI : HeapInv h sps1 wps1) :
    HeapInv (h.log (Event.deleterCall p)) sps1 wps1 := by
  have hbe : ∀ x, blockEvents (h.events ++ [Event.deleterCall p]) x =
      blockEvents h.events x := by
    intro x
    rw [blockEvents_append]
    simp [isFor]
  constructor
  · intro bid b hm
    obtain ⟨h1, h2, h3, h4, h5⟩ := hI.alive bid b hm
    exact ⟨h1, h2, h3, h4, by rw [Heap.events_log_def, hbe]; exact h5⟩
  · intro bid hlt hm
    obtain ⟨h1, h2, h3⟩ := hI.dead bid hlt hm
    exact ⟨by rw [Heap.events_log_def, hbe]; exact h1, h2, h3⟩
  · intro bid hge
    obtain ⟨h1, h2, h3, h4⟩ := hI.fresh bid hge
    exact ⟨h1, by rw [Heap.events_log_def, hbe]; exact h2, h3, h4⟩

/-- Appending a release for `bid` extends `bid`'s subtrace by it. -/
theorem blockEvents_rel_self (evs : List Event) (bid : Nat) :
    blockEvents (evs ++ [Event.release bid]) bid =
      blockEvents evs bid ++ [Event.release bid] := by
  rw [blockEvents_append]
  simp [isFor]

/-- Appending a release for `bid` leaves other subtraces unchanged. -/
theorem blockEvents_rel_other (evs : List Event) (bid x : Nat) (hx : x ≠ bid) :
    blockEvents (evs ++ [Event.release bid]) x = blockEvents evs x := by
  rw [blockEvents_append]
  simp [isFor, beq_iff_eq, Ne.symm hx]

/-- Appending a deallocation for `bid` extends `bid`'s subtrace by it. -/
theorem blockEvents_dea_self (evs : List Event) (bid : Nat) :
    blockEvents (evs ++ [Event.dealloc bid]) bid =
      blockEvents evs bid ++ [Event.dealloc bid] := by
  rw [blockEvents_append]
  simp [isFor]

/-- Appending a deallocation for `bid` leaves other subtraces
unchanged. -/
theorem blockEvents_dea_other (evs : List Event) (bid x : Nat) (hx : x ≠ bid) :
    blockEvents (evs ++ [Event.dealloc bid]) x = blockEvents evs x := by
  rw [blockEvents_append]
  simp [isFor, beq_iff_eq, Ne.symm hx]

/-- Destroying an owning pointer holding block `bid` — decrementing the
strong count, releasing at zero, deallocating when both counters reach
zero — preserves the bookkeeping invariant, provided the handle
environment loses exactly one owner of `bid`. -/
theorem inv_unlink_sp {h : Heap} {sps1 sps2 : List shared_ptr}
    {wps1 : List weak_ptr} {bid : Nat} {o : Option Nat}
    {res : shared_ptr × Heap} (hI : HeapInv h sps1 wps1)
    (hu : shared_ptr.unlink ⟨some bid, o⟩ h = some res)
    (hs : ∀ x, countSP sps2 x + (if x = bid then 1 else 0) = countSP sps1 x) :
    HeapInv res.2 sps2 wps1 := by
  cases hm : h.mem bid with
  | none => simp [shared_ptr.unlink, hm] at hu
  | some b =>
    obtain ⟨hlt, hstrong, hweak, htot, hev⟩ := hI.alive bid b hm
    have hsbid : countSP sps2 bid + 1 = countSP sps1 bid := by
      have h1 := hs bid
      rwa [if_pos rfl] at h1
    have hsx : ∀ x, x ≠ bid → countSP sps2 x = countSP sps1 x := by
      intro x hx
      have h1 := hs x
      rwa [if_neg hx, Nat.add_zero] at h1
    have hpos : 0 < b.strong_ref := by omega
    have hnotz : b.strong_ref ≠ 0 := by omega
    rw [if_neg hnotz] at hev
    rw [sp_unlink_eq o hm hpos] at hu
    obtain rfl := Option.some.inj hu
    by_cases hn : b.strong_ref - 1 = 0
    · by_cases hw0 : b.strong_ref - 1 + b.weak_ref = 0
      · -- last owner gone, no observers: release then deallocate
        rw [if_pos hn, if_pos hw0]
        constructor
        · intro x bx hmx
          simp only [Heap.mem_log_def, Heap.mem_erase_def, Heap.mem_set_def] at hmx
          by_cases hx : x = bid
          · rw [if_pos hx] at hmx
            exact absurd hmx (by simp)
          · rw [if_neg hx, if_neg hx] at hmx
            obtain ⟨hlt2, hstrong2, hweak2, htot2, hev2⟩ := hI.alive x bx hmx
            refine ⟨hlt2, ?_, hweak2, htot2, ?_⟩
            · rw [hsx x hx]
              exact hstrong2
            · simp only [Heap.events_log_def, Heap.events_erase_def,
                Heap.events_set_def]
              rw [blockEvents_dea_other _ _ _ hx, blockEvents_rel_other _ _ _ hx]
              exact hev2
        · intro x hltx hmx
          simp only [Heap.next_log_def, Heap.next_erase_def, Heap.next_set_def]
            at hltx
          simp only [Heap.mem_log_def, Heap.mem_erase_def, Heap.mem_set_def] at hmx
          by_cases hx : x = bid
          · rw [hx]
            refine ⟨?_, by omega, by omega⟩
            simp only [Heap.events_log_def, Heap.events_erase_def,
              Heap.events_set_def]
            rw [blockEvents_dea_self, blockEvents_rel_self, hev]
            rfl
          · rw [if_neg hx, if_neg hx] at hmx
            obtain ⟨he, hc1, hc2⟩ := hI.dead x hltx hmx
            refine ⟨?_, ?_, hc2⟩
            · simp only [Heap.events_log_def, Heap.events_erase_def,
                Heap.events_set_def]
              rw [blockEvents_dea_other _ _ _ hx, blockEvents_rel_other _ _ _ hx]
              exact he
            · rw [hsx x hx]
              exact hc1
        · intro x hge
          simp only [Heap.next_log_def, Heap.next_erase_def, Heap.next_set_def]
            at hge
          have hx : x ≠ bid := by omega
          obtain ⟨hm0, he0, hc1, hc2⟩ := hI.fresh x hge
          refine ⟨?_, ?_, ?_, hc2⟩
          · simp only [Heap.mem_log_def, Heap.mem_erase_def, Heap.mem_set_def]
            rw [if_neg hx, if_neg hx]
            exact hm0
          · simp only [Heap.events_log_def, Heap.events_erase_def,
              Heap.events_set_def]
            rw [blockEvents_dea_other _ _ _ hx, blockEvents_rel_other _ _ _ hx]
            exact he0
          · rw [hsx x hx]
            exact hc1
      · -- last owner gone, observers remain: release, block stays
        rw [if_pos hn, if_neg hw0]
        constructor
        · intro x bx hmx
          simp only [Heap.mem_log_def, Heap.mem_set_def] at hmx
          by_cases hx : x = bid
          · rw [hx]
            rw [if_pos hx] at hmx
            obtain rfl := Option.some.inj hmx
            refine ⟨hlt, by show b.strong_ref - 1 = countSP sps2 bid; omega,
              hweak, by show 0 < b.strong_ref - 1 + b.weak_ref; omega, ?_⟩
            simp only [Heap.events_log_def, Heap.events_set_def]
            rw [blockEvents_rel_self, hev]
            simp [hn]
          · rw [if_neg hx] at hmx
            obtain ⟨hlt2, hstrong2, hweak2, htot2, hev2⟩ := hI.alive x bx hmx
            refine ⟨hlt2, ?_, hweak2, htot2, ?_⟩
            · rw [hsx x hx]
              exact hstrong2
            · simp only [Heap.events_log_def, Heap.events_set_def]
              rw [blockEvents_rel_other _ _ _ hx]
              exact hev2
        · intro x hltx hmx
          simp only [Heap.next_log_def, Heap.next_set_def] at hltx
          simp only [Heap.mem_log_def, Heap.mem_set_def] at hmx
          by_cases hx : x = bid
          · rw [if_pos hx] at hmx
            exact absurd hmx (by simp)
          · rw [if_neg hx] at hmx
            obtain ⟨he, hc1, hc2⟩ := hI.dead x hltx hmx
            refine ⟨?_, ?_, hc2⟩
            · simp only [Heap.events_log_def, Heap.events_set_def]
              rw [blockEvents_rel_other _ _ _ hx]
              exact he
            · rw [hsx x hx]
              exact hc1
        · intro x hge
          simp only [Heap.next_log_def, Heap.next_set_def] at hge
          have hx : x ≠ bid := by omega
          obtain ⟨hm0, he0, hc1, hc2⟩ := hI.fresh x hge
          refine ⟨?_, ?_, ?_, hc2⟩
          · simp only [Heap.mem_log_def, Heap.mem_set_def]
            rw [if_neg hx]
            exact hm0
          · simp only [Heap.events_log_def, Heap.events_set_def]
            rw [blockEvents_rel_other _ _ _ hx]
            exact he0
          · rw [hsx x hx]
            exact hc1
    · -- owners remain: plain decrement
      rw [if_neg hn]
      constructor
      · intro x bx hmx
        simp only [Heap.mem_set_def] at hmx
        by_cases hx : x = bid
        · rw [hx]
          rw [if_pos hx] at hmx
          obtain rfl := Option.some.inj hmx
          refine ⟨hlt, by show b.strong_ref - 1 = countSP sps2 bid; omega,
            hweak, by show 0 < b.strong_ref - 1 + b.weak_ref; omega, ?_⟩
          simp only [Heap.events_set_def]
          rw [if_neg (by simpa using hn)]
          exact hev
        · rw [if_neg hx] at hmx
          obtain ⟨hlt2, hstrong2, hweak2, htot2, hev2⟩ := hI.alive x bx hmx
          refine ⟨hlt2, ?_, hweak2, htot2, hev2⟩
          rw [hsx x hx]
          exact hstrong2
      · intro x hltx hmx
        simp only [Heap.next_set_def] at hltx
        simp only [Heap.mem_set_def] at hmx
        by_cases hx : x = bid
        · rw [if_pos hx] at hmx
          exact absurd hmx (by simp)
        · rw [if_neg hx] at hmx
          obtain ⟨he, hc1, hc2⟩ := hI.dead x hltx hmx
          refine ⟨he, ?_, hc2⟩
          rw [hsx x hx]
          exact hc1
      · intro x hge
        simp only [Heap.next_set_def] at hge
        have hx : x ≠ bid := by omega
        obtain ⟨hm0, he0, hc1, hc2⟩ := hI.fresh x hge
        refine ⟨?_, he0, ?_, hc2⟩
        · simp only [Heap.mem_set_def]
          rw [if_neg hx]
          exact hm0
        · rw [hsx x hx]
          exact hc1

/-- Destroying an observing pointer holding block `bid` — decrementing
the weak count and deallocating when both counters reach zero (no payload
release: that was already logged when the strong count hit zero) —
preserves the bookkeeping invariant, provided the handle environment
loses exactly one observer of `bid`. -/
theorem inv_unlink_wp {h : Heap} {sps1 : List shared_ptr}
    {wps1 wps2 : List weak_ptr} {bid : Nat} {o : Option Nat}
    {res : weak_ptr × Heap} (hI : HeapInv h sps1 wps1)
    (hu : weak_ptr.unlink ⟨some bid, o⟩ h = some res)
    (hw : ∀ x, countWP wps2 x + (if x = bid then 1 else 0) = countWP wps1 x) :
    HeapInv res.2 sps1 wps2 := by
  cases hm : h.mem bid with
  | none => simp [weak_ptr.unlink, hm] at hu
  | some b =>
    obtain ⟨hlt, hstrong, hweak, htot, hev⟩ := hI.alive bid b hm
    have hwbid : countWP wps2 bid + 1 = countWP wps1 bid := by
      have h1 := hw bid
      rwa [if_pos rfl] at h1
    have hwx : ∀ x, x ≠ bid → countWP wps2 x = countWP wps1 x := by
      intro x hx
      have h1 := hw x
      rwa [if_neg hx, Nat.add_zero] at h1
    rw [wp_unlink_eq o hm] at hu
    obtain rfl := Option.some.inj hu
    by_cases h0 : b.strong_ref + (b.weak_ref - 1) = 0
    · rw [if_pos h0]
      have hstrong0 : b.strong_ref = 0 := by omega
      rw [if_pos hstrong0] at hev
      constructor
      · intro x bx hmx
        simp only [Heap.mem_log_def, Heap.mem_erase_def, Heap.mem_set_def] at hmx
        by_cases hx : x = bid
        · rw [if_pos hx] at hmx
          exact absurd hmx (by simp)
        · rw [if_neg hx, if_neg hx] at hmx
          obtain ⟨hlt2, hstrong2, hweak2, htot2, hev2⟩ := hI.alive x bx hmx
          refine ⟨hlt2, hstrong2, ?_, htot2, ?_⟩
          · rw [hwx x hx]
            exact hweak2
          · simp only [Heap.events_log_def, Heap.events_erase_def,
              Heap.events_set_def]
            rw [blockEvents_dea_other _ _ _ hx]
            exact hev2
      · intro x hltx hmx
        simp only [Heap.next_log_def, Heap.next_erase_def, Heap.next_set_def]
          at hltx
        simp only [Heap.mem_log_def, Heap.mem_erase_def, Heap.mem_set_def] at hmx
        by_cases hx : x = bid
        · rw [hx]
          refine ⟨?_, by omega, by omega⟩
          simp only [Heap.events_log_def, Heap.events_erase_def,
            Heap.events_set_def]
          rw [blockEvents_dea_self, hev]
          rfl
        · rw [if_neg hx, if_neg hx] at hmx
          obtain ⟨he, hc1, hc2⟩ := hI.dead x hltx hmx
          refine ⟨?_, hc1, ?_⟩
          · simp only [Heap.events_log_def, Heap.events_erase_def,
              Heap.events_set_def]
            rw [blockEvents_dea_other _ _ _ hx]
            exact he
          · rw [hwx x hx]
            exact hc2
      · intro x hge
        simp only [Heap.next_log_def, Heap.next_erase_def, Heap.next_set_def]
          at hge
        have hx : x ≠ bid := by omega
        obtain ⟨hm0, he0, hc1, hc2⟩ := hI.fresh x hge
        refine ⟨?_, ?_, hc1, ?_⟩
        · simp only [Heap.mem_log_def, Heap.mem_erase_def, Heap.mem_set_def]
          rw [if_neg hx, if_neg hx]
          exact hm0
        · simp only [Heap.events_log_def, Heap.events_erase_def,
            Heap.events_set_def]
          rw [blockEvents_dea_other _ _ _ hx]
          exact he0
        · rw [hwx x hx]
          exact hc2
    · rw [if_neg h0]
      constructor
      · intro x bx hmx
        simp only [Heap.mem_set_def] at hmx
        by_cases hx : x = bid
        · rw [hx]
          rw [if_pos hx] at hmx
          obtain rfl := Option.some.inj hmx
          refine ⟨hlt, hstrong, by show b.weak_ref - 1 = countWP wps2 bid; omega,
            by show 0 < b.strong_ref + (b.weak_ref - 1); omega, ?_⟩
          simp only [Heap.events_set_def]
          exact hev
        · rw [if_neg hx] at hmx
          obtain ⟨hlt2, hstrong2, hweak2, htot2, hev2⟩ := hI.alive x bx hmx
          refine ⟨hlt2, hstrong2, ?_, htot2, hev2⟩
          rw [hwx x hx]
          exact hweak2
      · intro x hltx hmx
        simp only [Heap.next_set_def] at hltx
        simp only [Heap.mem_set_def] at hmx
        by_cases hx : x = bid
        · rw [if_pos hx] at hmx
          exact absurd hmx (by simp)
        · rw [if_neg hx] at hmx
          obtain ⟨he, hc1, hc2⟩ := hI.dead x hltx hmx
          refine ⟨he, hc1, ?_⟩
          rw [hwx x hx]
          exact hc2
      · intro x hge
        simp only [Heap.next_set_def] at hge
        have hx : x ≠ bid := by omega
        obtain ⟨hm0, he0, hc1, hc2⟩ := hI.fresh x hge
        refine ⟨?_, he0, hc1, ?_⟩
        · simp only [Heap.mem_set_def]
          rw [if_neg hx]
          exact hm0
        · rw [hwx x hx]
          exact hc2

/-- `countSP` over a cons. -/
theorem countSP_cons_add (sp0 : shared_ptr) (l : List shared_ptr) (x : Nat) :
    countSP (sp0 :: l) x =
      countSP l x + (if (sp0.cb == some x) = true then 1 else 0) := by
  unfold countSP
  simp only [List.countP_cons]

/-- `countSP` over a slot update. -/
theorem countSP_set_add {l : List shared_ptr} {i : Nat} {old : shared_ptr}
    (hi : l[i]? = some old) (v : shared_ptr) (x : Nat) :
    countSP (l.set i v) x + (if (old.cb == some x) = true then 1 else 0) =
      countSP l x + (if (v.cb == some x) = true then 1 else 0) := by
  unfold countSP
  simpa using countP_set_add v (fun sp => sp.cb == some x) hi

/-- `countSP` over a slot erasure. -/
theorem countSP_erase_add {l : List shared_ptr} {i : Nat} {old : shared_ptr}
    (hi : l[i]? = some old) (x : Nat) :
    countSP (l.eraseIdx i) x + (if (old.cb == some x) = true then 1 else 0) =
      countSP l x := by
  unfold countSP
  simpa using countP_eraseIdx_add (fun sp => sp.cb == some x) hi

/-- An owner of `bid` indexed in the environment makes the owner count of
`bid` positive. -/
theorem countSP_pos {l : List shared_ptr} {i : Nat} {sp : shared_ptr} {bid : Nat}
    (hi : l[i]? = some sp) (hcb : sp.cb = some bid) : 0 < countSP l bid :=
  countP_pos_of_getElem _ hi (by rw [hcb]; simp)

/-- `countWP` over a cons. -/
theorem countWP_cons_add (w0 : weak_ptr) (l : List weak_ptr) (x : Nat) :
    countWP (w0 :: l) x =
      countWP l x + (if (w0.cb == some x) = true then 1 else 0) := by
  unfold countWP
  simp only [List.countP_cons]

/-- `countWP` over a slot update. -/
theorem countWP_set_add {l : List weak_ptr} {i : Nat} {old : weak_ptr}
    (hi : l[i]? = some old) (v : weak_ptr) (x : Nat) :
    countWP (l.set i v) x + (if (old.cb == some x) = true then 1 else 0) =
      countWP l x + (if (v.cb == some x) = true then 1 else 0) := by
  unfold countWP
  simpa using countP_set_add v (fun w => w.cb == some x) hi

/-- `countWP` over a slot erasure. -/
theorem countWP_erase_add {l : List weak_ptr} {i : Nat} {old : weak_ptr}
    (hi : l[i]? = some old) (x : Nat) :
    countWP (l.eraseIdx i) x + (if (old.cb == some x) = true then 1 else 0) =
      countWP l x := by
  unfold countWP
  simpa using countP_eraseIdx_add (fun w => w.cb == some x) hi

/-- Commands other than the `shared_ptr(std::nullptr_t)` constructor. -/
def noNullCmd : Cmd → Bool
  | Cmd.newFromNullptr => false
  | _ => true

/-- One step of any operation other than the buggy `nullptr_t` constructor
preserves the reference-counting bookkeeping invariant. -/
theorem step_noNull {c : Cmd} {s s' : State} (hc : noNullCmd c = true)
    (hI : HeapInv s.heap s.sps s.wps) (hstep : step s c = some s') :
    HeapInv s'.heap s'.sps s'.wps := by
  cases c with
  | newDefault =>
    simp only [step] at hstep
    obtain rfl := Option.some.inj hstep
    refine inv_env_congr hI ?_ (fun x => rfl)
    intro x
    rw [countSP_cons_add, contribSP_none shared_ptr.mk0 rfl, Nat.add_zero]
  | newFromNullptr => simp [noNullCmd] at hc
  | newFromRaw p allocOk =>
    cases allocOk with
    | true =>
      simp only [step, shared_ptr.fromRaw, shared_ptr.make_cb, if_true] at hstep
      obtain rfl := Option.some.inj hstep
      refine inv_alloc1 hI ?_
      intro x
      rw [countSP_cons_add, contribSP s.heap.next rfl]
    | false =>
      simp only [step, shared_ptr.fromRaw, shared_ptr.make_cb,
        Bool.false_eq_true, if_false] at hstep
      obtain rfl := Option.some.inj hstep
      exact inv_log_deleter p hI
  | newMakeShared =>
    simp only [step, make_shared] at hstep
    obtain rfl := Option.some.inj hstep
    refine inv_alloc1 hI ?_
    intro x
    rw [countSP_cons_add, contribSP s.heap.next rfl]
  | copyFrom i =>
    simp only [step] at hstep
    cases hi : s.sps[i]? with
    | none => rw [hi] at hstep; simp at hstep
    | some sp =>
      rw [hi] at hstep
      obtain ⟨spcb, spobj⟩ := sp
      simp only at hstep
      cases spcb with
      | none =>
        simp only [shared_ptr.copyCtor, Option.map_some', Option.some.injEq]
          at hstep
        obtain rfl := hstep
        refine inv_env_congr hI ?_ (fun x => rfl)
        intro x
        rw [countSP_cons_add, contribSP_none ⟨none, spobj⟩ rfl, Nat.add_zero]
      | some bid =>
        simp only [shared_ptr.copyCtor] at hstep
        cases hm : s.heap.mem bid with
        | none => rw [hm] at hstep; simp at hstep
        | some b =>
          rw [hm] at hstep
          simp only [Option.map_some', Option.some.injEq] at hstep
          obtain rfl := hstep
          have hpos : b.strong_ref ≠ 0 := by
            have hge := countSP_pos hi rfl
            have hstrong := (hI.alive bid b hm).2.1
            omega
          refine inv_attach_sp hI hm hpos ?_
          intro x
          rw [countSP_cons_add, contribSP bid rfl]
  | moveFrom i =>
    simp only [step] at hstep
    cases hi : s.sps[i]? with
    | none => rw [hi] at hstep; simp at hstep
    | some sp =>
      rw [hi] at hstep
      obtain ⟨spcb, spobj⟩ := sp
      simp only [shared_ptr.moveCtor] at hstep
      obtain rfl := Option.some.inj hstep
      refine inv_env_congr hI ?_ (fun x => rfl)
      intro x
      show countSP (⟨spcb, spobj⟩ :: s.sps.set i ⟨none, none⟩) x = countSP s.sps x
      have hcnt := countSP_set_add hi (⟨none, none⟩ : shared_ptr) x
      rw [contribSP_none ⟨none, none⟩ rfl] at hcnt
      rw [countSP_cons_add]
      omega
  | aliasFrom i p =>
    simp only [step] at hstep
    cases hi : s.sps[i]? with
    | none => rw [hi] at hstep; simp at hstep
    | some sp =>
      rw [hi] at hstep
      obtain ⟨spcb, spobj⟩ := sp
      simp only at hstep
      cases spcb with
      | none =>
        simp only [shared_ptr.aliasCtor, Option.map_some', Option.some.injEq]
          at hstep
        obtain rfl := hstep
        refine inv_env_congr hI ?_ (fun x => rfl)
        intro x
        rw [countSP_cons_add, contribSP_none ⟨none, p⟩ rfl, Nat.add_zero]
      | some bid =>
        simp only [shared_ptr.aliasCtor] at hstep
        cases hm : s.heap.mem bid with
        | none => rw [hm] at hstep; simp at hstep
        | some b =>
          rw [hm] at hstep
          simp only [Option.map_some', Option.some.injEq] at hstep
          obtain rfl := hstep
          have hpos : b.strong_ref ≠ 0 := by
            have hge := countSP_pos hi rfl
            have hstrong := (hI.alive bid b hm).2.1
            omega
          refine inv_attach_sp hI hm hpos ?_
          intro x
          rw [countSP_cons_add, contribSP bid rfl]
  | assignCopySp dst src =>
    simp only [step] at hstep
    cases hd : s.sps[dst]? with
    | none => rw [hd] at hstep; simp at hstep
    | some old =>
      cases hs2 : s.sps[src]? with
      | none => rw [hd, hs2] at hstep; simp at hstep
      | some srcv =>
        rw [hd, hs2] at hstep
        obtain ⟨ocb, oobj⟩ := old
        obtain ⟨scb, sobj⟩ := srcv
        simp only at hstep
        cases ha : shared_ptr.assignCopy ⟨ocb, oobj⟩ ⟨scb, sobj⟩ s.heap with
        | none => rw [ha] at hstep; simp at hstep
        | some pr =>
          rw [ha] at hstep
          simp only [Option.map_some', Option.some.injEq] at hstep
          unfold shared_ptr.assignCopy at ha
          cases hcp : shared_ptr.copyCtor ⟨scb, sobj⟩ s.heap with
          | none => rw [hcp] at ha; simp at ha
          | some pr1 =>
            obtain ⟨tmp, h1⟩ := pr1
            rw [hcp] at ha
            simp only [Option.some_bind] at ha
            cases hu : shared_ptr.unlink ⟨ocb, oobj⟩ h1 with
            | none => rw [hu] at ha; simp at ha
            | some pr2 =>
              obtain ⟨sp2, h2⟩ := pr2
              rw [hu] at ha
              simp only [Option.map_some', Option.some.injEq] at ha
              have htmp : tmp = ⟨scb, sobj⟩ := sp_copy_fields hcp
              subst htmp
              have hfst : pr.1 = (⟨scb, sobj⟩ : shared_ptr) :=
                congrArg Prod.fst ha.symm
              have hsnd : pr.2 = h2 := congrArg Prod.snd ha.symm
              rw [hfst, hsnd] at hstep
              obtain rfl := hstep
              have hInv1 : HeapInv h1 (⟨scb, sobj⟩ :: s.sps) s.wps := by
                cases scb with
                | none =>
                  simp only [shared_ptr.copyCtor, Option.some.injEq,
                    Prod.mk.injEq] at hcp
                  obtain ⟨_, rfl⟩ := hcp
                  refine inv_env_congr hI ?_ (fun x => rfl)
                  intro x
                  rw [countSP_cons_add, contribSP_none ⟨none, sobj⟩ rfl,
                    Nat.add_zero]
                | some bid =>
                  simp only [shared_ptr.copyCtor] at hcp
                  cases hm : s.heap.mem bid with
                  | none => rw [hm] at hcp; simp at hcp
                  | some b =>
                    rw [hm] at hcp
                    simp only [Option.map_some', Option.some.injEq,
                      Prod.mk.injEq] at hcp
                    obtain ⟨_, rfl⟩ := hcp
                    have hpos : b.strong_ref ≠ 0 := by
                      have hge := countSP_pos hs2 rfl
                      have hstrong := (hI.alive bid b hm).2.1
                      omega
                    refine inv_attach_sp hI hm hpos ?_
                    intro x
                    rw [countSP_cons_add, contribSP bid rfl]
              cases ocb with
              | none =>
                simp only [shared_ptr.unlink, Option.some.injEq,
                  Prod.mk.injEq] at hu
                obtain ⟨_, rfl⟩ := hu
                refine inv_env_congr hInv1 ?_ (fun x => rfl)
                intro x
                show countSP (s.sps.set dst ⟨scb, sobj⟩) x =
                  countSP (⟨scb, sobj⟩ :: s.sps) x
                have hc2 := countSP_set_add hd (⟨scb, sobj⟩ : shared_ptr) x
                rw [contribSP_none ⟨none, oobj⟩ rfl] at hc2
                rw [countSP_cons_add]
                omega
              | some bid2 =>
                refine inv_unlink_sp hInv1 hu ?_
                intro x
                show countSP (s.sps.set dst ⟨scb, sobj⟩) x +
                    (if x = bid2 then 1 else 0) =
                  countSP (⟨scb, sobj⟩ :: s.sps) x
                have hc2 := countSP_set_add hd (⟨scb, sobj⟩ : shared_ptr) x
                rw [contribSP bid2 rfl] at hc2
                rw [countSP_cons_add]
                omega
  | assignMoveSp dst src =>
    simp only [step] at hstep
    cases hd : s.sps[dst]? with
    | none => rw [hd] at hstep; simp at hstep
    | some old =>
      cases hs2 : s.sps[src]? with
      | none => rw [hd, hs2] at hstep; simp at hstep
      | some srcv =>
        rw [hd, hs2] at hstep
        simp only at hstep
        by_cases hds : dst = src
        · rw [if_pos hds] at hstep
          obtain rfl := Option.some.inj hstep
          exact hI
        · rw [if_neg hds] at hstep
          obtain ⟨ocb, oobj⟩ := old
          obtain ⟨scb, sobj⟩ := srcv
          cases hu : shared_ptr.unlink ⟨ocb, oobj⟩ s.heap with
          | none => rw [hu] at hstep; simp at hstep
          | some pr =>
            rw [hu] at hstep
            simp only [Option.map_some', Option.some.injEq] at hstep
            obtain rfl := hstep
            have hsrc2 : (s.sps.set dst ⟨scb, sobj⟩)[src]? = some ⟨scb, sobj⟩ := by
              rw [List.getElem?_set, if_neg hds]
              exact hs2
            cases ocb with
            | none =>
              simp only [shared_ptr.unlink, Option.some.injEq] at hu
              obtain rfl := Option.some.inj (congrArg some hu)
              refine inv_env_congr hI ?_ (fun x => rfl)
              intro x
              show countSP ((s.sps.set dst ⟨scb, sobj⟩).set src ⟨none, none⟩) x =
                countSP s.sps x
              have hc1 := countSP_set_add hsrc2 (⟨none, none⟩ : shared_ptr) x
              rw [contribSP_none ⟨none, none⟩ rfl] at hc1
              have hc2 := countSP_set_add hd (⟨scb, sobj⟩ : shared_ptr) x
              rw [contribSP_none ⟨none, oobj⟩ rfl] at hc2
              omega
            | some bid2 =>
              refine inv_unlink_sp hI hu ?_
              intro x
              show countSP ((s.sps.set dst ⟨scb, sobj⟩).set src ⟨none, none⟩) x +
                  (if x = bid2 then 1 else 0) =
                countSP s.sps x
              have hc1 := countSP_set_add hsrc2 (⟨none, none⟩ : shared_ptr) x
              rw [contribSP_none ⟨none, none⟩ rfl] at hc1
              have hc2 := countSP_set_add hd (⟨scb, sobj⟩ : shared_ptr) x
              rw [contribSP bid2 rfl] at hc2
              omega
  | resetSp i =>
    simp only [step] at hstep
    cases hi : s.sps[i]? with
    | none => rw [hi] at hstep; simp at hstep
    | some sp =>
      rw [hi] at hstep
      obtain ⟨spcb, spobj⟩ := sp
      simp only at hstep
      cases hu : shared_ptr.unlink ⟨spcb, spobj⟩ s.heap with
      | none => rw [hu] at hstep; simp at hstep
      | some pr =>
        obtain ⟨sp1, h1⟩ := pr
        have hsh : sp1 = ⟨none, none⟩ := sp_unlink_fields hu
        subst hsh
        rw [hu] at hstep
        simp only [Option.map_some', Option.some.injEq] at hstep
        obtain rfl := hstep
        cases spcb with
        | none =>
          simp only [shared_ptr.unlink, Option.some.injEq, Prod.mk.injEq] at hu
          obtain ⟨_, rfl⟩ := hu
          refine inv_env_congr hI ?_ (fun x => rfl)
          intro x
          show countSP (s.sps.set i ⟨none, none⟩) x = countSP s.sps x
          have hcnt := countSP_set_add hi (⟨none, none⟩ : shared_ptr) x
          rw [contribSP_none ⟨none, none⟩ rfl] at hcnt
          omega
        | some bid =>
          refine inv_unlink_sp hI hu ?_
          intro x
          show countSP (s.sps.set i ⟨none, none⟩) x +
              (if x = bid then 1 else 0) =
            countSP s.sps x
          have hcnt := countSP_set_add hi (⟨none, none⟩ : shared_ptr) x
          rw [contribSP_none ⟨none, none⟩ rfl, contribSP bid rfl] at hcnt
          omega
  | resetRawSp i p allocOk =>
    simp only [step] at hstep
    cases hi : s.sps[i]? with
    | none => rw [hi] at hstep; simp at hstep
    | some sp =>
      rw [hi] at hstep
      obtain ⟨spcb, spobj⟩ := sp
      simp only at hstep
      cases hr : shared_ptr.resetRaw ⟨spcb, spobj⟩ p allocOk s.heap with
      | none => rw [hr] at hstep; simp at hstep
      | some tr =>
        rw [hr] at hstep
        simp only [Option.map_some', Option.some.injEq] at hstep
        unfold shared_ptr.resetRaw at hr
        cases hu : shared_ptr.unlink ⟨spcb, spobj⟩ s.heap with
        | none => rw [hu] at hr; simp at hr
        | some pr =>
          obtain ⟨sp1, h1⟩ := pr
          rw [hu] at hr
          simp only [Option.map_some', Option.some.injEq] at hr
          have hsh : sp1 = ⟨none, none⟩ := sp_unlink_fields hu
          subst hsh
          have hInv1 : HeapInv h1 (s.sps.set i ⟨none, none⟩) s.wps := by
            cases spcb with
            | none =>
              simp only [shared_ptr.unlink, Option.some.injEq, Prod.mk.injEq]
                at hu
              obtain ⟨_, rfl⟩ := hu
              refine inv_env_congr hI ?_ (fun x => rfl)
              intro x
              show countSP (s.sps.set i ⟨none, none⟩) x = countSP s.sps x
              have hcnt := countSP_set_add hi (⟨none, none⟩ : shared_ptr) x
              rw [contribSP_none ⟨none, none⟩ rfl] at hcnt
              omega
            | some bid =>
              refine inv_unlink_sp hI hu ?_
              intro x
              show countSP (s.sps.set i ⟨none, none⟩) x +
                  (if x = bid then 1 else 0) =
                countSP s.sps x
              have hcnt := countSP_set_add hi (⟨none, none⟩ : shared_ptr) x
              rw [contribSP_none ⟨none, none⟩ rfl, contribSP bid rfl] at hcnt
              omega
          cases allocOk with
          | true =>
            simp only [shared_ptr.make_cb, if_true] at hr
            have h21 : tr.2.1 =
                (⟨some (h1.alloc ⟨0, 0⟩).1, p⟩ : shared_ptr) :=
              congrArg (fun t => t.2.1) hr.symm
            have h22 : tr.2.2 =
                (h1.alloc ⟨0, 0⟩).2.set (h1.alloc ⟨0, 0⟩).1 ⟨0 + 1, 0⟩ :=
              congrArg (fun t => t.2.2) hr.symm
            rw [h21, h22] at hstep
            obtain rfl := hstep
            refine inv_alloc1 hInv1 ?_
            intro x
            show countSP (s.sps.set i ⟨some (h1.alloc ⟨0, 0⟩).1, p⟩) x =
              countSP (s.sps.set i ⟨none, none⟩) x +
                (if x = h1.next then 1 else 0)
            have hcA := countSP_set_add hi
              (⟨some (h1.alloc ⟨0, 0⟩).1, p⟩ : shared_ptr) x
            rw [@contribSP h1.next ⟨some (h1.alloc ⟨0, 0⟩).1, p⟩ rfl] at hcA
            have hcB := countSP_set_add hi (⟨none, none⟩ : shared_ptr) x
            rw [contribSP_none ⟨none, none⟩ rfl] at hcB
            cases spcb with
            | none =>
              rw [contribSP_none ⟨none, spobj⟩ rfl] at hcA hcB
              omega
            | some bid0 =>
              rw [contribSP bid0 rfl] at hcA hcB
              omega
          | false =>
            simp only [shared_ptr.make_cb, Bool.false_eq_true, if_false] at hr
            have h21 : tr.2.1 = (⟨none, none⟩ : shared_ptr) :=
              congrArg (fun t => t.2.1) hr.symm
            have h22 : tr.2.2 = h1.log (Event.deleterCall p) :=
              congrArg (fun t => t.2.2) hr.symm
            rw [h21, h22] at hstep
            obtain rfl := hstep
            exact inv_log_deleter p hInv1
  | destroySp i =>
    simp only [step] at hstep
    cases hi : s.sps[i]? with
    | none => rw [hi] at hstep; simp at hstep
    | some sp =>
      rw [hi] at hstep
      obtain ⟨spcb, spobj⟩ := sp
      simp only at hstep
      cases hu : shared_ptr.unlink ⟨spcb, spobj⟩ s.heap with
      | none => rw [hu] at hstep; simp at hstep
      | some pr =>
        obtain ⟨sp1, h1⟩ := pr
        rw [hu] at hstep
        simp only [Option.map_some', Option.some.injEq] at hstep
        obtain rfl := hstep
        cases spcb with
        | none =>
          simp only [shared_ptr.unlink, Option.some.injEq, Prod.mk.injEq] at hu
          obtain ⟨_, rfl⟩ := hu
          refine inv_env_congr hI ?_ (fun x => rfl)
          intro x
          show countSP (s.sps.eraseIdx i) x = countSP s.sps x
          have hcnt := countSP_erase_add hi x
          rw [contribSP_none ⟨none, spobj⟩ rfl] at hcnt
          omega
        | some bid =>
          refine inv_unlink_sp hI hu ?_
          intro x
          show countSP (s.sps.eraseIdx i) x + (if x = bid then 1 else 0) =
            countSP s.sps x
          have hcnt := countSP_erase_add hi x
          rw [contribSP bid rfl] at hcnt
          omega
  | newWeakFromShared i =>
    simp only [step] at hstep
    cases hi : s.sps[i]? with
    | none => rw [hi] at hstep; simp at hstep
    | some sp =>
      rw [hi] at hstep
      obtain ⟨spcb, spobj⟩ := sp
      simp only at hstep
      cases spcb with
      | none =>
        simp only [weak_ptr.fromShared, Option.map_some', Option.some.injEq]
          at hstep
        obtain rfl := hstep
        refine inv_env_congr hI (fun x => rfl) ?_
        intro x
        rw [countWP_cons_add, contribWP_none ⟨none, spobj⟩ rfl, Nat.add_zero]
      | some bid =>
        simp only [weak_ptr.fromShared] at hstep
        cases hm : s.heap.mem bid with
        | none => rw [hm] at hstep; simp at hstep
        | some b =>
          rw [hm] at hstep
          simp only [Option.map_some', Option.some.injEq] at hstep
          obtain rfl := hstep
          refine inv_attach_wp hI hm ?_
          intro x
          rw [countWP_cons_add, contribWP bid rfl]
  | weakCopy j =>
    simp only [step] at hstep
    cases hj : s.wps[j]? with
    | none => rw [hj] at hstep; simp at hstep
    | some w =>
      rw [hj] at hstep
      obtain ⟨wcb, wobj⟩ := w
      simp only at hstep
      cases wcb with
      | none =>
        simp only [weak_ptr.copyCtor, Option.map_some', Option.some.injEq]
          at hstep
        obtain rfl := hstep
        refine inv_env_congr hI (fun x => rfl) ?_
        intro x
        rw [countWP_cons_add, contribWP_none ⟨none, wobj⟩ rfl, Nat.add_zero]
      | some bid =>
        simp only [weak_ptr.copyCtor] at hstep
        cases hm : s.heap.mem bid with
        | none => rw [hm] at hstep; simp at hstep
        | some b =>
          rw [hm] at hstep
          simp only [Option.map_some', Option.some.injEq] at hstep
          obtain rfl := hstep
          refine inv_attach_wp hI hm ?_
          intro x
          rw [countWP_cons_add, contribWP bid rfl]
  | weakMove j =>
    simp only [step] at hstep
    cases hj : s.wps[j]? with
    | none => rw [hj] at hstep; simp at hstep
    | some w =>
      rw [hj] at hstep
      obtain ⟨wcb, wobj⟩ := w
      simp only [weak_ptr.moveCtor] at hstep
      obtain rfl := Option.some.inj hstep
      refine inv_env_congr hI (fun x => rfl) ?_
      intro x
      show countWP (⟨wcb, wobj⟩ :: s.wps.set j ⟨none, none⟩) x = countWP s.wps x
      have hcnt := countWP_set_add hj (⟨none, none⟩ : weak_ptr) x
      rw [contribWP_none ⟨none, none⟩ rfl] at hcnt
      rw [countWP_cons_add]
      omega
  | weakAssignCopy dst src =>
    simp only [step] at hstep
    cases hd : s.wps[dst]? with
    | none => rw [hd] at hstep; simp at hstep
    | some old =>
      cases hs2 : s.wps[src]? with
      | none => rw [hd, hs2] at hstep; simp at hstep
      | some srcv =>
        rw [hd, hs2] at hstep
        obtain ⟨ocb, oobj⟩ := old
        obtain ⟨scb, sobj⟩ := srcv
        simp only at hstep
        cases ha : weak_ptr.assignCopy ⟨ocb, oobj⟩ ⟨scb, sobj⟩ s.heap with
        | none => rw [ha] at hstep; simp at hstep
        | some pr =>
          rw [ha] at hstep
          simp only [Option.map_some', Option.some.injEq] at hstep
          unfold weak_ptr.assignCopy at ha
          cases hcp : weak_ptr.copyCtor ⟨scb, sobj⟩ s.heap with
          | none => rw [hcp] at ha; simp at ha
          | some pr1 =>
            obtain ⟨tmp, h1⟩ := pr1
            rw [hcp] at ha
            simp only [Option.some_bind] at ha
            cases hu : weak_ptr.unlink ⟨ocb, oobj⟩ h1 with
            | none => rw [hu] at ha; simp at ha
            | some pr2 =>
              obtain ⟨w2, h2⟩ := pr2
              rw [hu] at ha
              simp only [Option.map_some', Option.some.injEq] at ha
              have htmp : tmp = ⟨scb, sobj⟩ := wp_copy_fields hcp
              subst htmp
              have hfst : pr.1 = (⟨scb, sobj⟩ : weak_ptr) :=
                congrArg Prod.fst ha.symm
              have hsnd : pr.2 = h2 := congrArg Prod.snd ha.symm
              rw [hfst, hsnd] at hstep
              obtain rfl := hstep
              have hInv1 : HeapInv h1 s.sps (⟨scb, sobj⟩ :: s.wps) := by
                cases scb with
                | none =>
                  simp only [weak_ptr.copyCtor, Option.some.injEq,
                    Prod.mk.injEq] at hcp
                  obtain ⟨_, rfl⟩ := hcp
                  refine inv_env_congr hI (fun x => rfl) ?_
                  intro x
                  rw [countWP_cons_add, contribWP_none ⟨none, sobj⟩ rfl,
                    Nat.add_zero]
                | some bid =>
                  simp only [weak_ptr.copyCtor] at hcp
                  cases hm : s.heap.mem bid with
                  | none => rw [hm] at hcp; simp at hcp
                  | some b =>
                    rw [hm] at hcp
                    simp only [Option.map_some', Option.some.injEq,
                      Prod.mk.injEq] at hcp
                    obtain ⟨_, rfl⟩ := hcp
                    refine inv_attach_wp hI hm ?_
                    intro x
                    rw [countWP_cons_add, contribWP bid rfl]
              cases ocb with
              | none =>
                simp only [weak_ptr.unlink, Option.some.injEq,
                  Prod.mk.injEq] at hu
                obtain ⟨_, rfl⟩ := hu
                refine inv_env_congr hInv1 (fun x => rfl) ?_
                intro x
                show countWP (s.wps.set dst ⟨scb, sobj⟩) x =
                  countWP (⟨scb, sobj⟩ :: s.wps) x
                have hc2 := countWP_set_add hd (⟨scb, sobj⟩ : weak_ptr) x
                rw [contribWP_none ⟨none, oobj⟩ rfl] at hc2
                rw [countWP_cons_add]
                omega
              | some bid2 =>
                refine inv_unlink_wp hInv1 hu ?_
                intro x
                show countWP (s.wps.set dst ⟨scb, sobj⟩) x +
                    (if x = bid2 then 1 else 0) =
                  countWP (⟨scb, sobj⟩ :: s.wps) x
                have hc2 := countWP_set_add hd (⟨scb, sobj⟩ : weak_ptr) x
                rw [contribWP bid2 rfl] at hc2
                rw [countWP_cons_add]
                omega
  | weakAssignMove dst src =>
    simp only [step] at hstep
    cases hd : s.wps[dst]? with
    | none => rw [hd] at hstep; simp at hstep
    | some old =>
      cases hs2 : s.wps[src]? with
      | none => rw [hd, hs2] at hstep; simp at hstep
      | some srcv =>
        rw [hd, hs2] at hstep
        simp only at hstep
        by_cases hds : dst = src
        · rw [if_pos hds] at hstep
          obtain rfl := Option.some.inj hstep
          exact hI
        · rw [if_neg hds] at hstep
          obtain ⟨ocb, oobj⟩ := old
          obtain ⟨scb, sobj⟩ := srcv
          cases hu : weak_ptr.unlink ⟨ocb, oobj⟩ s.heap with
          | none => rw [hu] at hstep; simp at hstep
          | some pr =>
            rw [hu] at hstep
            simp only [Option.map_some', Option.some.injEq] at hstep
            obtain rfl := hstep
            have hsrc2 : (s.wps.set dst ⟨scb, sobj⟩)[src]? = some ⟨scb, sobj⟩ := by
              rw [List.getElem?_set, if_neg hds]
              exact hs2
            cases ocb with
            | none =>
              simp only [weak_ptr.unlink, Option.some.injEq] at hu
              obtain rfl := Option.some.inj (congrArg some hu)
              refine inv_env_congr hI (fun x => rfl) ?_
              intro x
              show countWP ((s.wps.set dst ⟨scb, sobj⟩).set src ⟨none, none⟩) x =
                countWP s.wps x
              have hc1 := countWP_set_add hsrc2 (⟨none, none⟩ : weak_ptr) x
              rw [contribWP_none ⟨none, none⟩ rfl] at hc1
              have hc2 := countWP_set_add hd (⟨scb, sobj⟩ : weak_ptr) x
              rw [contribWP_none ⟨none, oobj⟩ rfl] at hc2
              omega
            | some bid2 =>
              refine inv_unlink_wp hI hu ?_
              intro x
              show countWP ((s.wps.set dst ⟨scb, sobj⟩).set src ⟨none, none⟩) x +
                  (if x = bid2 then 1 else 0) =
                countWP s.wps x
              have hc1 := countWP_set_add hsrc2 (⟨none, none⟩ : weak_ptr) x
              rw [contribWP_none ⟨none, none⟩ rfl] at hc1
              have hc2 := countWP_set_add hd (⟨scb, sobj⟩ : weak_ptr) x
              rw [contribWP bid2 rfl] at hc2
              omega
  | weakAssignShared dst i =>
    simp only [step] at hstep
    cases hd : s.wps[dst]? with
    | none => rw [hd] at hstep; simp at hstep
    | some old =>
      cases hi : s.sps[i]? with
      | none => rw [hd, hi] at hstep; simp at hstep
      | some sp =>
        rw [hd, hi] at hstep
        obtain ⟨ocb, oobj⟩ := old
        obtain ⟨spcb, spobj⟩ := sp
        simp only at hstep
        cases ha : weak_ptr.assignShared ⟨ocb, oobj⟩ ⟨spcb, spobj⟩ s.heap with
        | none => rw [ha] at hstep; simp at hstep
        | some pr =>
          rw [ha] at hstep
          simp only [Option.map_some', Option.some.injEq] at hstep
          unfold weak_ptr.assignShared at ha
          cases hu : weak_ptr.unlink ⟨ocb, oobj⟩ s.heap with
          | none => rw [hu] at ha; simp at ha
          | some pr1 =>
            obtain ⟨w1, h1⟩ := pr1
            rw [hu] at ha
            simp only [Option.some_bind] at ha
            have hInv1 : HeapInv h1 s.sps (s.wps.set dst ⟨none, none⟩) := by
              cases ocb with
              | none =>
                simp only [weak_ptr.unlink, Option.some.injEq, Prod.mk.injEq]
                  at hu
                obtain ⟨_, rfl⟩ := hu
                refine inv_env_congr hI (fun x => rfl) ?_
                intro x
                show countWP (s.wps.set dst ⟨none, none⟩) x = countWP s.wps x
                have hc2 := countWP_set_add hd (⟨none, none⟩ : weak_ptr) x
                rw [contribWP_none ⟨none, none⟩ rfl] at hc2
                omega
              | some bid2 =>
                refine inv_unlink_wp hI hu ?_
                intro x
                show countWP (s.wps.set dst ⟨none, none⟩) x +
                    (if x = bid2 then 1 else 0) =
                  countWP s.wps x
                have hc2 := countWP_set_add hd (⟨none, none⟩ : weak_ptr) x
                rw [contribWP_none ⟨none, none⟩ rfl, contribWP bid2 rfl] at hc2
                omega
            cases spcb with
            | none =>
              simp only [Option.some.injEq] at ha
              have hfst : pr.1 = (⟨none, spobj⟩ : weak_ptr) :=
                congrArg Prod.fst ha.symm
              have hsnd : pr.2 = h1 := congrArg Prod.snd ha.symm
              rw [hfst, hsnd] at hstep
              obtain rfl := hstep
              refine inv_env_congr hInv1 (fun x => rfl) ?_
              intro x
              show countWP (s.wps.set dst ⟨none, spobj⟩) x =
                countWP (s.wps.set dst ⟨none, none⟩) x
              have hcA := countWP_set_add hd (⟨none, spobj⟩ : weak_ptr) x
              rw [contribWP_none ⟨none, spobj⟩ rfl] at hcA
              have hcB := countWP_set_add hd (⟨none, none⟩ : weak_ptr) x
              rw [contribWP_none ⟨none, none⟩ rfl] at hcB
              omega
            | some bid =>
              simp only at ha
              cases hm : h1.mem bid with
              | none => rw [hm] at ha; simp at ha
              | some b =>
                rw [hm] at ha
                simp only [Option.map_some', Option.some.injEq] at ha
                have hfst : pr.1 = (⟨some bid, spobj⟩ : weak_ptr) :=
                  congrArg Prod.fst ha.symm
                have hsnd : pr.2 = h1.set bid ⟨b.strong_ref, b.weak_ref + 1⟩ :=
                  congrArg Prod.snd ha.symm
                rw [hfst, hsnd] at hstep
                obtain rfl := hstep
                refine inv_attach_wp hInv1 hm ?_
                intro x
                show countWP (s.wps.set dst ⟨some bid, spobj⟩) x =
                  countWP (s.wps.set dst ⟨none, none⟩) x +
                    (if x = bid then 1 else 0)
                have hcA := countWP_set_add hd (⟨some bid, spobj⟩ : weak_ptr) x
                rw [@contribWP bid ⟨some bid, spobj⟩ rfl] at hcA
                have hcB := countWP_set_add hd (⟨none, none⟩ : weak_ptr) x
                rw [contribWP_none ⟨none, none⟩ rfl] at hcB
                omega
  | destroyWeak j =>
    simp only [step] at hstep
    cases hj : s.wps[j]? with
    | none => rw [hj] at hstep; simp at hstep
    | some w =>
      rw [hj] at hstep
      obtain ⟨wcb, wobj⟩ := w
      simp only at hstep
      cases hu : weak_ptr.unlink ⟨wcb, wobj⟩ s.heap with
      | none => rw [hu] at hstep; simp at hstep
      | some pr =>
        obtain ⟨w1, h1⟩ := pr
        rw [hu] at hstep
        simp only [Option.map_some', Option.some.injEq] at hstep
        obtain rfl := hstep
        cases wcb with
        | none =>
          simp only [weak_ptr.unlink, Option.some.injEq, Prod.mk.injEq] at hu
          obtain ⟨_, rfl⟩ := hu
          refine inv_env_congr hI (fun x => rfl) ?_
          intro x
          show countWP (s.wps.eraseIdx j) x = countWP s.wps x
          have hcnt := countWP_erase_add hj x
          rw [contribWP_none ⟨none, wobj⟩ rfl] at hcnt
          omega
        | some bid =>
          refine inv_unlink_wp hI hu ?_
          intro x
          show countWP (s.wps.eraseIdx j) x + (if x = bid then 1 else 0) =
            countWP s.wps x
          have hcnt := countWP_erase_add hj x
          rw [contribWP bid rfl] at hcnt
          omega
  | lockWeak j =>
    simp only [step] at hstep
    cases hj : s.wps[j]? with
    | none => rw [hj] at hstep; simp at hstep
    | some w =>
      rw [hj] at hstep
      obtain ⟨wcb, wobj⟩ := w
      simp only at hstep
      cases wcb with
      | none =>
        simp only [weak_ptr.lock, Option.map_some', Option.some.injEq] at hstep
        obtain rfl := hstep
        refine inv_env_congr hI ?_ (fun x => rfl)
        intro x
        rw [countSP_cons_add, contribSP_none ⟨none, none⟩ rfl, Nat.add_zero]
      | some bid =>
        simp only [weak_ptr.lock] at hstep
        cases hm : s.heap.mem bid with
        | none => rw [hm] at hstep; simp at hstep
        | some b =>
          rw [hm] at hstep
          simp only [Option.map_some', Option.some.injEq] at hstep
          by_cases hbs : b.strong_ref = 0
          · rw [if_neg (not_not_intro hbs)] at hstep
            obtain rfl := hstep
            refine inv_env_congr hI ?_ (fun x => rfl)
            intro x
            rw [countSP_cons_add, contribSP_none ⟨none, none⟩ rfl, Nat.add_zero]
          · rw [if_pos hbs] at hstep
            obtain rfl := hstep
            refine inv_attach_sp hI hm hbs ?_
            intro x
            rw [countSP_cons_add, contribSP bid rfl]

/-- Running any program that avoids the `nullptr_t` constructor preserves
the bookkeeping invariant. -/
theorem run_noNull {cmds : List Cmd} :
    ∀ {s s' : State}, run s cmds = some s' → cmds.all noNullCmd = true →
    HeapInv s.heap s.sps s.wps → HeapInv s'.heap s'.sps s'.wps := by
  induction cmds with
  | nil =>
    intro s s' hr _ hI
    obtain rfl := Option.some.inj hr
    exact hI
  | cons c cs ih =>
    intro s s' hr hall hI
    simp only [List.all_cons, Bool.and_eq_true] at hall
    simp only [run] at hr
    cases hs1 : step s c with
    | none => rw [hs1] at hr; simp at hr
    | some s1 =>
      rw [hs1] at hr
      simp only [Option.some_bind] at hr
      exact ih hr hall.2 (step_noNull hall.1 hI hs1)

/-- Number of payload-release events logged for block `bid`. -/
def countRel (evs : List Event) (bid : Nat) : Nat :=
  evs.countP (fun e => e == Event.release bid)

/-- Number of deallocation events logged for block `bid`. -/
def countDea (evs : List Event) (bid : Nat) : Nat :=
  evs.countP (fun e => e == Event.dealloc bid)

/-- Releases of `bid` are all contained in `bid`'s subtrace. -/
theorem countRel_blockEvents (evs : List Event) (bid : Nat) :
    countRel evs bid = countRel (blockEvents evs bid) bid := by
  unfold countRel blockEvents
  induction evs with
  | nil => rfl
  | cons e t ih =>
    cases e with
    | release b =>
      by_cases hb : b = bid
      · subst hb
        simp [List.countP_cons, List.filter, isFor, ih]
      · have hbb : (b == bid) = false := by simp [hb]
        simp [List.countP_cons, List.filter, isFor, hb, ih, hbb]
    | dealloc b =>
      by_cases hb : b = bid
      · subst hb
        simp [List.countP_cons, List.filter, isFor, ih]
      · have hbb : (b == bid) = false := by simp [hb]
        simp [List.countP_cons, List.filter, isFor, hb, ih, hbb]
    | deleterCall p =>
      simp [List.countP_cons, List.filter, isFor, ih]

/-- Deallocations of `bid` are all contained in `bid`'s subtrace. -/
theorem countDea_blockEvents (evs : List Event) (bid : Nat) :
    countDea evs bid = countDea (blockEvents evs bid) bid := by
  unfold countDea blockEvents
  induction evs with
  | nil => rfl
  | cons e t ih =>
    cases e with
    | release b =>
      by_cases hb : b = bid
      · subst hb
        simp [List.countP_cons, List.filter, isFor, ih]
      · have hbb : (b == bid) = false := by simp [hb]
        simp [List.countP_cons, List.filter, isFor, hb, ih, hbb]
    | dealloc b =>
      by_cases hb : b = bid
      · subst hb
        simp [List.countP_cons, List.filter, isFor, ih]
      · have hbb : (b == bid) = false := by simp [hb]
        simp [List.countP_cons, List.filter, isFor, hb, ih, hbb]
    | deleterCall p =>
      simp [List.countP_cons, List.filter, isFor, ih]

/-- Release discipline for programs avoiding the `nullptr_t` constructor:
the payload release of each control block runs exactly once — zero times
while the strong count is positive, exactly once from the moment the
strong count reaches zero, and exactly once for deallocated blocks. -/
theorem release_discipline {cmds : List Cmd} {s : State}
    (hr : run State.init cmds = some s) (hall : cmds.all noNullCmd = true)
    (bid : Nat) :
    countRel s.heap.events bid ≤ 1
    ∧ (∀ b, s.heap.mem bid = some b →
        countRel s.heap.events bid = (if b.strong_ref = 0 then 1 else 0))
    ∧ (s.heap.mem bid = none →
        countRel s.heap.events bid = (if bid < s.heap.next then 1 else 0)) := by
  have hI := run_noNull hr hall HeapInv_init
  have key : countRel s.heap.events bid =
      (match s.heap.mem bid with
       | some b => if b.strong_ref = 0 then 1 else 0
       | none => if bid < s.heap.next then 1 else 0) := by
    cases hm : s.heap.mem bid with
    | some b =>
      obtain ⟨_, _, _, _, hev⟩ := hI.alive bid b hm
      rw [countRel_blockEvents, hev]
      by_cases hb0 : b.strong_ref = 0
      · simp [hb0, countRel, List.countP_cons]
      · simp [hb0, countRel]
    | none =>
      by_cases hlt : bid < s.heap.next
      · obtain ⟨hev, _, _⟩ := hI.dead bid hlt hm
        rw [countRel_blockEvents, hev]
        simp [hlt, countRel, List.countP_cons]
      · obtain ⟨_, hev, _, _⟩ := hI.fresh bid (by omega)
        rw [countRel_blockEvents, hev]
        simp [hlt, countRel]
  refine ⟨?_, ?_, ?_⟩
  · rw [key]
    cases hm : s.heap.mem bid with
    | some b => by_cases hb0 : b.strong_ref = 0 <;> simp [hb0]
    | none => by_cases hlt : bid < s.heap.next <;> simp [hlt]
  · intro b hm
    rw [key, hm]
  · intro hm
    rw [key, hm]

/-- Deallocation discipline for programs avoiding the `nullptr_t`
constructor: a block's memory is never reclaimed while the block is live
(and a live block always has a positive combined count), and a reclaimed
block's subtrace is exactly one payload release followed by exactly one
deallocation. -/
theorem dealloc_discipline {cmds : List Cmd} {s : State}
    (hr : run State.init cmds = some s) (hall : cmds.all noNullCmd = true)
    (bid : Nat) :
    (∀ b, s.heap.mem bid = some b →
      countDea s.heap.events bid = 0 ∧ 0 < b.strong_ref + b.weak_ref)
    ∧ (bid < s.heap.next → s.heap.mem bid = none →
        blockEvents s.heap.events bid =
          [Event.release bid, Event.dealloc bid]) := by
  have hI := run_noNull hr hall HeapInv_init
  refine ⟨?_, ?_⟩
  · intro b hm
    obtain ⟨_, _, _, htot, hev⟩ := hI.alive bid b hm
    refine ⟨?_, htot⟩
    rw [countDea_blockEvents, hev]
    by_cases hb0 : b.strong_ref = 0
    · simp [hb0, countDea, List.countP_cons]
    · simp [hb0, countDea]
  · intro hlt hm
    exact (hI.dead bid hlt hm).1

/-- Owner-count discipline for programs avoiding the `nullptr_t`
constructor: every live owning pointer that references a control block
reports a `use_count()` equal to the number of live owning pointers
referencing that block. -/
theorem use_count_eq_owner_count {cmds : List Cmd} {s : State}
    (hr : run State.init cmds = some s) (hall : cmds.all noNullCmd = true) :
    ∀ (i : Nat) (sp : shared_ptr) (bid : Nat),
      s.sps[i]? = some sp → sp.cb = some bid →
      shared_ptr.use_count sp s.heap = some (countSP s.sps bid) := by
  have hI := run_noNull hr hall HeapInv_init
  intro i sp bid hi hcb
  have hpos : 0 < countSP s.sps bid := countSP_pos hi hcb
  cases hm : s.heap.mem bid with
  | some b =>
    have hstrong := (hI.alive bid b hm).2.1
    simp [shared_ptr.use_count, hcb, hm, hstrong]
  | none =>
    exfalso
    by_cases hlt : bid < s.heap.next
    · have hz := (hI.dead bid hlt hm).2.1
      omega
    · have hz := (hI.fresh bid (by omega)).2.2.1
      omega
